import Mathlib

/-!
Verification of the PackStream codec core of the bolt-rs repository.

The Rust source is shallowly embedded: `Bytes` cursors become explicit
state passing over `List Nat` (each element a byte value), fallible
functions return `Except`, and the `catch_unwind` panic guard around the
decoders is modelled by an explicit `PRes` outcome type whose `panic`
constructor stands for an under-read panic of the `bytes` crate cursor.
Machine integers are `Int`/`Nat` with explicit range conditions.
Rust `String` payloads are modelled by their UTF-8 byte sequences
(`BStr`); the UTF-8 validity check of the decoder is elided since no
claim depends on it.
-/

namespace BoltRs

/-- A byte sequence; each element is a byte value (< 256 for real inputs). -/
abbrev ByteL := List Nat

/-- The UTF-8 byte sequence of a Rust `String`. -/
abbrev BStr := List Nat

/-- Error kinds, modelled from the constructors the source files build:
`DeserializationError::InvalidMarkerByte`, the invalid-signature error of
`deserialize_structure`, `DeserializationError::Panicked` (the
`catch_unwind` translation of a cursor panic), `Error::ValueTooLarge`,
and the conversion failure of the structure field conversions (its
`Value` payload is elided to keep the type non-recursive). -/
inductive CErr : Type
| invalidMarkerByte (b : Nat)
| invalidSignatureByte (b : Nat)
| panicked
| valueTooLarge (n : Nat)
| conversionFailed
deriving DecidableEq, Repr

/-- The `Value` enum of `bolt/value.rs`: the closed set of variants the
codec can represent.  Graph-structure payloads follow the spec's data
model (`Node` = id, labels, properties; etc.); `path` keeps its node and
relationship fields as raw `Value` lists checked by the decoder. -/
inductive Value : Type
| boolean (b : Bool)
| integer (i : Int)
| float (bits : Nat)
| list (l : List Value)
| map (m : List (BStr × Value))
| null
| string (s : BStr)
| node (id : Int) (labels : List BStr) (properties : List (BStr × Value))
| relationship (id : Int) (startNodeId : Int) (endNodeId : Int)
    (relType : BStr) (properties : List (BStr × Value))
| path (nodes : List Value) (relationships : List Value) (sequence : List Int)
| unboundRelationship (id : Int) (relType : BStr) (properties : List (BStr × Value))

/-- Big-endian byte encoding of `n` in `w` bytes (truncating above `2^(8*w)`). -/
def beBytes : Nat → Nat → ByteL
| 0, _ => []
| w + 1, n => beBytes w (n / 256) ++ [n % 256]

/-- Big-endian value of a byte list (as read by `get_u16`/`get_u32`). -/
def beVal (bs : ByteL) : Nat := bs.foldl (fun a b => a * 256 + b) 0

/-- Signed interpretation of an unsigned `bits`-bit value (Rust `as i8` etc.). -/
def sint (bits : Nat) (n : Nat) : Int :=
  if n < 2 ^ (bits - 1) then (n : Int) else (n : Int) - 2 ^ bits

/-- Rust `marker as i8` on a byte. -/
def asI8 (b : Nat) : Int := sint 8 (b % 256)

/-- Marker constant `null::MARKER`. -/
def nullMARKER : Nat := 0xC0
/-- Marker constant `boolean::MARKER_FALSE`. -/
def booleanMARKER_FALSE : Nat := 0xC2
/-- Marker constant `boolean::MARKER_TRUE`. -/
def booleanMARKER_TRUE : Nat := 0xC3
/-- Marker constant `list::MARKER_TINY` (`list.rs`). -/
def listMARKER_TINY : Nat := 0x90
/-- Marker constant `structure::MARKER_TINY` (`bolt/structure.rs`). -/
def structureMARKER_TINY : Nat := 0xB0
/-- Marker constant `structure::MARKER_SMALL`. -/
def structureMARKER_SMALL : Nat := 0xDC
/-- Marker constant `structure::MARKER_MEDIUM`. -/
def structureMARKER_MEDIUM : Nat := 0xDD
/-- Marker constant `map::MARKER_TINY` (`value/map.rs`). -/
def mapMARKER_TINY : Nat := 0xA0
/-- Marker constant `map::MARKER_SMALL`. -/
def mapMARKER_SMALL : Nat := 0xD8
/-- Marker constant `map::MARKER_MEDIUM`. -/
def mapMARKER_MEDIUM : Nat := 0xD9
/-- Marker constant `map::MARKER_LARGE`. -/
def mapMARKER_LARGE : Nat := 0xDA

/-- `Map::get_marker` from `value/map.rs`: the size-range match choosing
the map marker, failing with `ValueTooLarge` above `2^32 - 1` entries. -/
def mapGetMarker (len : Nat) : Except CErr Nat :=
  if len ≤ 15 then .ok (mapMARKER_TINY ||| len)
  else if len ≤ 255 then .ok mapMARKER_SMALL
  else if len ≤ 65535 then .ok mapMARKER_MEDIUM
  else if len ≤ 4294967295 then .ok mapMARKER_LARGE
  else .error (.valueTooLarge len)

/-- Modelled from the spec: `List::get_marker` (`list.rs` is not under
`src/`); the spec's §4.1 table gives tiny `0x90..=0x9F` and width
markers `0xD4`/`0xD5`/`0xD6`. -/
def listGetMarker (len : Nat) : Except CErr Nat :=
  if len ≤ 15 then .ok (listMARKER_TINY ||| len)
  else if len ≤ 255 then .ok 0xD4
  else if len ≤ 65535 then .ok 0xD5
  else if len ≤ 4294967295 then .ok 0xD6
  else .error (.valueTooLarge len)

/-- The size-prefix bytes written after a collection marker (the second
size match of `TryInto<Bytes> for Map`): nothing for tiny, `u8`, `u16`
big-endian, or `u32` big-endian. -/
def sizeHeaderBytes (len : Nat) : Except CErr ByteL :=
  if len ≤ 15 then .ok []
  else if len ≤ 255 then .ok [len]
  else if len ≤ 65535 then .ok (beBytes 2 len)
  else if len ≤ 4294967295 then .ok (beBytes 4 len)
  else .error (.valueTooLarge len)

/-- Modelled from the spec: `String` encoding (`string.rs` is not under
`src/`); tiny marker `0x80 | len`, then `0xD0`/`0xD1`/`0xD2` with
`u8`/`u16`/`u32` big-endian sizes, `ValueTooLarge` above `2^32 - 1`. -/
def encodeString (s : BStr) : Except CErr ByteL :=
  if s.length ≤ 15 then .ok ((0x80 ||| s.length) :: s)
  else if s.length ≤ 255 then .ok (0xD0 :: s.length :: s)
  else if s.length ≤ 65535 then .ok (0xD1 :: (beBytes 2 s.length ++ s))
  else if s.length ≤ 4294967295 then .ok (0xD2 :: (beBytes 4 s.length ++ s))
  else .error (.valueTooLarge s.length)

/-- Modelled from the spec: minimum-width `Integer` encoding
(`integer.rs` is not under `src/`); tiny for `-16..=127`, then
`0xC8`/`0xC9`/`0xCA`/`0xCB` with 1/2/4/8 signed big-endian bytes. -/
def encodeInteger (i : Int) : ByteL :=
  if -16 ≤ i ∧ i ≤ 127 then [(i % 256).toNat]
  else if -128 ≤ i ∧ i ≤ 127 then [0xC8, (i % 256).toNat]
  else if -32768 ≤ i ∧ i ≤ 32767 then 0xC9 :: beBytes 2 (i % 65536).toNat
  else if -2147483648 ≤ i ∧ i ≤ 2147483647 then 0xCA :: beBytes 4 (i % 4294967296).toNat
  else 0xCB :: beBytes 8 (i % 18446744073709551616).toNat

/-- Encoding of a list of UTF-8 strings (used for `Node` labels). -/
def encodeStrings : List BStr → Except CErr ByteL
| [] => .ok []
| s :: tl =>
  match encodeString s with
  | .error e => .error e
  | .ok sb =>
    match encodeStrings tl with
    | .error e => .error e
    | .ok tb => .ok (sb ++ tb)

/-- Assembly of an encoded map from its entry count and entry bytes:
the marker from `Map::get_marker`, then the entry loop result, then the
size-prefix match, exactly in the order of `TryInto<Bytes> for Map`. -/
def mapAssemble (len : Nat) (ebr : Except CErr ByteL) : Except CErr ByteL :=
  match mapGetMarker len with
  | .error e => .error e
  | .ok marker =>
    match ebr with
    | .error e => .error e
    | .ok eb =>
      match sizeHeaderBytes len with
      | .error e => .error e
      | .ok sz => .ok (marker :: (sz ++ eb))

/-- Assembly of an encoded list from its element count and element
bytes, mirroring `mapAssemble` with the list marker family. -/
def listAssemble (len : Nat) (vbr : Except CErr ByteL) : Except CErr ByteL :=
  match listGetMarker len with
  | .error e => .error e
  | .ok marker =>
    match vbr with
    | .error e => .error e
    | .ok vb =>
      match sizeHeaderBytes len with
      | .error e => .error e
      | .ok sz => .ok (marker :: (sz ++ vb))

/-- Encoding of a list of strings as an encoded `List` value (used for
`Node` labels). -/
def encodeStringList (labels : List BStr) : Except CErr ByteL :=
  listAssemble labels.length (encodeStrings labels)

mutual

/-- `TryInto<Bytes> for Value` in `bolt/value.rs`: dispatch on the
variant.  Structure variants (modelled from the spec, their `try_into`
files are not under `src/`) emit the tiny structure marker, the
signature byte, and the packed fields. -/
def encodeValue : Value → Except CErr ByteL
| .null => .ok [nullMARKER]
| .boolean b => .ok [if b then booleanMARKER_TRUE else booleanMARKER_FALSE]
| .integer i => .ok (encodeInteger i)
| .float bits => .ok (0xC1 :: beBytes 8 bits)
| .string s => encodeString s
| .list l => listAssemble l.length (encodeValues l)
| .map m => mapAssemble m.length (encodeEntries m)
| .node id labels properties =>
  match encodeStringList labels with
  | .error e => .error e
  | .ok lb =>
    match mapAssemble properties.length (encodeEntries properties) with
    | .error e => .error e
    | .ok pb =>
      .ok ((structureMARKER_TINY ||| 3) :: 0x4E :: (encodeInteger id ++ lb ++ pb))
| .relationship id startNodeId endNodeId relType properties =>
  match encodeString relType with
  | .error e => .error e
  | .ok tb =>
    match mapAssemble properties.length (encodeEntries properties) with
    | .error e => .error e
    | .ok pb =>
      .ok ((structureMARKER_TINY ||| 5) :: 0x52 ::
        (encodeInteger id ++ encodeInteger startNodeId ++ encodeInteger endNodeId ++ tb ++ pb))
| .unboundRelationship id relType properties =>
  match encodeString relType with
  | .error e => .error e
  | .ok tb =>
    match mapAssemble properties.length (encodeEntries properties) with
    | .error e => .error e
    | .ok pb =>
      .ok ((structureMARKER_TINY ||| 3) :: 0x72 :: (encodeInteger id ++ tb ++ pb))
| .path nodes relationships sequence =>
  match listAssemble nodes.length (encodeValues nodes) with
  | .error e => .error e
  | .ok nb =>
    match listAssemble relationships.length (encodeValues relationships) with
    | .error e => .error e
    | .ok rb =>
      match listAssemble sequence.length (.ok (sequence.map encodeInteger).flatten) with
      | .error e => .error e
      | .ok sb =>
        .ok ((structureMARKER_TINY ||| 3) :: 0x50 :: (nb ++ rb ++ sb))

/-- Concatenated encodings of a list of values (the element loop of the
`List` encoder). -/
def encodeValues : List Value → Except CErr ByteL
| [] => .ok []
| v :: tl =>
  match encodeValue v with
  | .error e => .error e
  | .ok vb =>
    match encodeValues tl with
    | .error e => .error e
    | .ok tb => .ok (vb ++ tb)

/-- The entry loop of `TryInto<Bytes> for Map`: key bytes then value
bytes for each entry, in order. -/
def encodeEntries : List (BStr × Value) → Except CErr ByteL
| [] => .ok []
| (k, v) :: tl =>
  match encodeString k with
  | .error e => .error e
  | .ok kb =>
    match encodeValue v with
    | .error e => .error e
    | .ok vb =>
      match encodeEntries tl with
      | .error e => .error e
      | .ok tb => .ok (kb ++ vb ++ tb)

end

/-- `TryInto<Bytes> for Map` from `value/map.rs`: marker from
`get_marker`, then the entry loop, then marker byte, size prefix and
entry bytes assembled in order. -/
def encodeMap (m : List (BStr × Value)) : Except CErr ByteL :=
  mapAssemble m.length (encodeEntries m)

/-- Public name for the `Map` encoder, `Map::try_into_bytes`. -/
def mapTryIntoBytes (m : List (BStr × Value)) : Except CErr ByteL := encodeMap m

/-- Outcome of a decoder body running inside a `catch_unwind` boundary:
a cursor under-read panic, exhaustion of the recursion fuel of the
embedding (proved unreachable for the fuel the public entry points
supply), or a returned `Result` together with the remaining bytes. -/
inductive PRes (α : Type) : Type
| panic
| exhausted
| res (r : Except CErr (α × ByteL))

/-- Sequencing of panic-or-result computations: panics, exhaustion and
errors propagate, successes feed the continuation. -/
def pbind {α β : Type} : PRes α → ((α × ByteL) → PRes β) → PRes β
| .panic, _ => .panic
| .exhausted, _ => .exhausted
| .res (.error e), _ => .res (.error e)
| .res (.ok p), f => f p

/-- The `catch_unwind` boundary of the public `try_from` functions:
a panic becomes the `Panicked` deserialization error (`value/map.rs`
line 102, `bolt/value.rs` line 255); so would fuel exhaustion, which
the supplied fuel makes unreachable. -/
def catchUnwindP {α : Type} : PRes α → Except CErr (α × ByteL)
| .panic => .error .panicked
| .exhausted => .error .panicked
| .res r => r

/-- Cursor `get_u8`: panics on an exhausted cursor. -/
def getU8 (bs : ByteL) : PRes Nat :=
  match bs with
  | [] => .panic
  | b :: rest => .res (.ok (b, rest))

/-- Cursor read of `n` raw bytes (`Buf::copy_to_slice` / `split_to`):
panics when fewer than `n` bytes remain. -/
def takeN (n : Nat) (bs : ByteL) : PRes ByteL :=
  if n ≤ bs.length then .res (.ok (bs.take n, bs.drop n)) else .panic

/-- Cursor `get_u16`: two bytes, big-endian. -/
def getU16 (bs : ByteL) : PRes Nat :=
  pbind (takeN 2 bs) fun (w, rest) => .res (.ok (beVal w, rest))

/-- Cursor `get_u32`: four bytes, big-endian. -/
def getU32 (bs : ByteL) : PRes Nat :=
  pbind (takeN 4 bs) fun (w, rest) => .res (.ok (beVal w, rest))

/-- Modelled from the spec: the inner body of `String::try_from`
(`string.rs` is not under `src/`): marker, size by width family, then
that many payload bytes.  The UTF-8 validation of the payload is elided
(strings are modelled by their UTF-8 bytes). -/
def stringTryFromInner (bs : ByteL) : PRes BStr :=
  pbind (getU8 bs) fun (marker, r) =>
  if 0x80 ≤ marker ∧ marker ≤ 0x80 ||| 0x0F then
    takeN (0x0F &&& marker) r
  else if marker = 0xD0 then
    pbind (getU8 r) fun (size, r1) => takeN size r1
  else if marker = 0xD1 then
    pbind (getU16 r) fun (size, r1) => takeN size r1
  else if marker = 0xD2 then
    pbind (getU32 r) fun (size, r1) => takeN size r1
  else .res (.error (.invalidMarkerByte marker))

/-- Modelled from the spec: the inner body of `Integer::try_from`
(`integer.rs` is not under `src/`): width marker then 1/2/4/8 signed
big-endian payload bytes. -/
def integerTryFromInner (bs : ByteL) : PRes Int :=
  pbind (getU8 bs) fun (marker, r) =>
  if marker = 0xC8 then
    pbind (getU8 r) fun (n, r1) => .res (.ok (sint 8 n, r1))
  else if marker = 0xC9 then
    pbind (getU16 r) fun (n, r1) => .res (.ok (sint 16 n, r1))
  else if marker = 0xCA then
    pbind (getU32 r) fun (n, r1) => .res (.ok (sint 32 n, r1))
  else if marker = 0xCB then
    pbind (takeN 8 r) fun (w, r1) => .res (.ok (sint 64 (beVal w), r1))
  else .res (.error (.invalidMarkerByte marker))

/-- Modelled from the spec: the inner body of `Float::try_from`
(`float.rs` is not under `src/`): marker `0xC1` then eight payload
bytes, kept as the 64-bit big-endian bit pattern. -/
def floatTryFromInner (bs : ByteL) : PRes Nat :=
  pbind (getU8 bs) fun (marker, r) =>
  if marker = 0xC1 then
    pbind (takeN 8 r) fun (w, r1) => .res (.ok (beVal w, r1))
  else .res (.error (.invalidMarkerByte marker))

/-- `get_signature_from_bytes` from `bolt/structure.rs`: reads the
structure marker, reads *and discards* the declared field count
(`let _size`), then reads and returns the signature byte. -/
def getSignatureFromBytes (bs : ByteL) : PRes Nat :=
  pbind (getU8 bs) fun (marker, r) =>
  if structureMARKER_TINY ≤ marker ∧ marker ≤ structureMARKER_TINY ||| 0x0F then
    getU8 r
  else if marker = structureMARKER_SMALL then
    pbind (getU8 r) fun (_size, r1) => getU8 r1
  else if marker = structureMARKER_MEDIUM then
    pbind (getU16 r) fun (_size, r1) => getU8 r1
  else .res (.error (.invalidMarkerByte marker))

/-- Extraction of `Node` labels: every element of the decoded labels
list must be a `String` value. -/
def listToStrings : List Value → Option (List BStr)
| [] => some []
| .string s :: tl =>
  match listToStrings tl with
  | some rest => some (s :: rest)
  | none => none
| _ :: _ => none

/-- Extraction of a `Path` sequence: every element must be an `Integer`. -/
def listToInts : List Value → Option (List Int)
| [] => some []
| .integer i :: tl =>
  match listToInts tl with
  | some rest => some (i :: rest)
  | none => none
| _ :: _ => none

/-- Check that every element of a decoded list is a `Node` value. -/
def allNodes (l : List Value) : Bool :=
  l.all fun v => match v with | .node _ _ _ => true | _ => false

/-- Check that every element of a decoded list is an
`UnboundRelationship` value. -/
def allUnbound (l : List Value) : Bool :=
  l.all fun v => match v with | .unboundRelationship _ _ _ => true | _ => false

/-- `HashMap::insert` semantics on the association-list model of a map:
an existing key has its value replaced in place, a new key is appended. -/
def insertPair (acc : List (BStr × Value)) (kv : BStr × Value) : List (BStr × Value) :=
  if acc.any fun p => p.1 = kv.1 then
    acc.map fun p => if p.1 = kv.1 then (p.1, kv.2) else p
  else acc ++ [kv]

/-- The `for _ in 0..size` loop of the `Map` decoder (`value/map.rs`
lines 95-99), parameterized by the `Value` decoder it calls: a key
`String` then a `Value` per iteration, inserted into the accumulated map
(`HashMap::insert` semantics: a duplicate key replaces the old value). -/
def mapLoop (decodeV : ByteL → PRes Value) : Nat → List (BStr × Value) → ByteL →
    PRes (List (BStr × Value))
| 0, acc, bs => .res (.ok (acc, bs))
| n + 1, acc, bs =>
  pbind (stringTryFromInner bs) fun (k, r1) =>
  pbind (decodeV r1) fun (v, r2) =>
  mapLoop decodeV n (insertPair acc (k, v)) r2

/-- The body of `TryFrom<Arc<Mutex<Bytes>>> for Map` (`value/map.rs`
lines 80-103), parameterized by the `Value` decoder: marker, size by
width family, then the entry loop.  The `HashMap::with_capacity(size)`
pre-allocation at line 94 does not affect the decoded value; the
capacity it requests from the allocator is modelled by
`mapRequestedCapacity` below. -/
def mapDeserializeBody (decodeV : ByteL → PRes Value) (bs : ByteL) :
    PRes (List (BStr × Value)) :=
  pbind (getU8 bs) fun (marker, r) =>
  if mapMARKER_TINY ≤ marker ∧ marker ≤ mapMARKER_TINY ||| 0x0F then
    mapLoop decodeV (0x0F &&& marker) [] r
  else if marker = mapMARKER_SMALL then
    pbind (getU8 r) fun (size, r1) => mapLoop decodeV size [] r1
  else if marker = mapMARKER_MEDIUM then
    pbind (getU16 r) fun (size, r1) => mapLoop decodeV size [] r1
  else if marker = mapMARKER_LARGE then
    pbind (getU32 r) fun (size, r1) => mapLoop decodeV size [] r1
  else .res (.error (.invalidMarkerByte marker))

/-- The argument the `Map` decoder passes to `HashMap::with_capacity`
(`value/map.rs` lines 82-94): the declared entry count, read from the
marker family before a single entry is parsed; `none` when the marker
is not a map marker or the size header itself cannot be read (those
paths return or panic before reaching line 94). -/
def mapRequestedCapacity (bs : ByteL) : Option Nat :=
  match getU8 bs with
  | .res (.ok (marker, r)) =>
    if mapMARKER_TINY ≤ marker ∧ marker ≤ mapMARKER_TINY ||| 0x0F then
      some (0x0F &&& marker)
    else if marker = mapMARKER_SMALL then
      match getU8 r with
      | .res (.ok (size, _)) => some size
      | _ => none
    else if marker = mapMARKER_MEDIUM then
      match getU16 r with
      | .res (.ok (size, _)) => some size
      | _ => none
    else if marker = mapMARKER_LARGE then
      match getU32 r with
      | .res (.ok (size, _)) => some size
      | _ => none
    else none
  | _ => none

/-- The element loop of the `List` decoder. -/
def listLoop (decodeV : ByteL → PRes Value) : Nat → List Value → ByteL →
    PRes (List Value)
| 0, acc, bs => .res (.ok (acc, bs))
| n + 1, acc, bs =>
  pbind (decodeV bs) fun (v, r1) =>
  listLoop decodeV n (acc ++ [v]) r1

/-- Modelled from the spec: the body of `List::try_from` (`list.rs` is
not under `src/`), mirroring the `Map` decoder's shape with the list
marker family. -/
def listDeserializeBody (decodeV : ByteL → PRes Value) (bs : ByteL) :
    PRes (List Value) :=
  pbind (getU8 bs) fun (marker, r) =>
  if listMARKER_TINY ≤ marker ∧ marker ≤ listMARKER_TINY ||| 0x0F then
    listLoop decodeV (0x0F &&& marker) [] r
  else if marker = 0xD4 then
    pbind (getU8 r) fun (size, r1) => listLoop decodeV size [] r1
  else if marker = 0xD5 then
    pbind (getU16 r) fun (size, r1) => listLoop decodeV size [] r1
  else if marker = 0xD6 then
    pbind (getU32 r) fun (size, r1) => listLoop decodeV size [] r1
  else .res (.error (.invalidMarkerByte marker))

/-- Modelled from the spec: `Node::try_from` field decoding (`node.rs`
is not under `src/`): three fields, `id:Int`, `labels:List<String>`,
`properties:Map`; a field of the wrong variant is a conversion error. -/
def nodeDeserializeBody (decodeV : ByteL → PRes Value) (bs : ByteL) : PRes Value :=
  pbind (decodeV bs) fun (v1, r1) =>
  pbind (decodeV r1) fun (v2, r2) =>
  pbind (decodeV r2) fun (v3, r3) =>
  match v1, v2, v3 with
  | .integer id, .list labelVals, .map props =>
    match listToStrings labelVals with
    | some labels => .res (.ok (.node id labels props, r3))
    | none => .res (.error .conversionFailed)
  | _, _, _ => .res (.error .conversionFailed)

/-- Modelled from the spec: `Relationship::try_from` field decoding
(`relationship.rs` is not under `src/`): five fields. -/
def relationshipDeserializeBody (decodeV : ByteL → PRes Value) (bs : ByteL) :
    PRes Value :=
  pbind (decodeV bs) fun (v1, r1) =>
  pbind (decodeV r1) fun (v2, r2) =>
  pbind (decodeV r2) fun (v3, r3) =>
  pbind (decodeV r3) fun (v4, r4) =>
  pbind (decodeV r4) fun (v5, r5) =>
  match v1, v2, v3, v4, v5 with
  | .integer id, .integer s, .integer e, .string t, .map props =>
    .res (.ok (.relationship id s e t props, r5))
  | _, _, _, _, _ => .res (.error .conversionFailed)

/-- Modelled from the spec: `Path::try_from` field decoding (`path.rs`
is not under `src/`): nodes, relationships, and an integer sequence. -/
def pathDeserializeBody (decodeV : ByteL → PRes Value) (bs : ByteL) : PRes Value :=
  pbind (decodeV bs) fun (v1, r1) =>
  pbind (decodeV r1) fun (v2, r2) =>
  pbind (decodeV r2) fun (v3, r3) =>
  match v1, v2, v3 with
  | .list nodes, .list rels, .list seqVals =>
    if allNodes nodes ∧ allUnbound rels then
      match listToInts seqVals with
      | some seq => .res (.ok (.path nodes rels seq, r3))
      | none => .res (.error .conversionFailed)
    else .res (.error .conversionFailed)
  | _, _, _ => .res (.error .conversionFailed)

/-- Modelled from the spec: `UnboundRelationship::try_from` field
decoding (`unbound_relationship.rs` is not under `src/`): three fields. -/
def unboundDeserializeBody (decodeV : ByteL → PRes Value) (bs : ByteL) : PRes Value :=
  pbind (decodeV bs) fun (v1, r1) =>
  pbind (decodeV r1) fun (v2, r2) =>
  pbind (decodeV r2) fun (v3, r3) =>
  match v1, v2, v3 with
  | .integer id, .string t, .map props =>
    .res (.ok (.unboundRelationship id t props, r3))
  | _, _, _ => .res (.error .conversionFailed)

/-- `deserialize_structure` from `bolt/value.rs` lines 264-279: read the
signature via `get_signature_from_bytes`, then dispatch on the known
graph-type signatures, else `Invalid signature byte`. -/
def deserializeStructure (decodeV : ByteL → PRes Value) (bs : ByteL) : PRes Value :=
  pbind (getSignatureFromBytes bs) fun (signature, r) =>
  if signature = 0x4E then nodeDeserializeBody decodeV r
  else if signature = 0x52 then relationshipDeserializeBody decodeV r
  else if signature = 0x50 then pathDeserializeBody decodeV r
  else if signature = 0x72 then unboundDeserializeBody decodeV r
  else .res (.error (.invalidSignatureByte signature))

/-- The inner body of `TryFrom<Arc<Mutex<Bytes>>> for Value`
(`bolt/value.rs` lines 188-254): peek the marker byte and dispatch, in
the source's arm order.  The tiny-structure arm reproduces the source's
range check verbatim: its upper bound is `list::MARKER_TINY | 0x0F`
(`0x9F`), so the range `0xB0..=0x9F` is empty.  The first argument is
the recursion fuel of the embedding (the public entry point supplies
enough, since every recursion level first consumes at least one byte). -/
def valueTryFromInner : Nat → ByteL → PRes Value
| 0, _ => .exhausted
| fuel + 1, bs =>
  match bs with
  | [] => .panic
  | b :: rest =>
    if b = nullMARKER then .res (.ok (.null, rest))
    else if b = booleanMARKER_FALSE then .res (.ok (.boolean false, rest))
    else if b = booleanMARKER_TRUE then .res (.ok (.boolean true, rest))
    else if -16 ≤ asI8 b ∧ asI8 b ≤ 127 then .res (.ok (.integer (asI8 b), rest))
    else if b = 0xC8 ∨ b = 0xC9 ∨ b = 0xCA ∨ b = 0xCB then
      pbind (integerTryFromInner bs) fun (i, r) => .res (.ok (.integer i, r))
    else if b = 0xC1 then
      pbind (floatTryFromInner bs) fun (n, r) => .res (.ok (.float n, r))
    else if 0x80 ≤ b ∧ b ≤ 0x80 ||| 0x0F then
      pbind (stringTryFromInner bs) fun (s, r) => .res (.ok (.string s, r))
    else if b = 0xD0 ∨ b = 0xD1 ∨ b = 0xD2 then
      pbind (stringTryFromInner bs) fun (s, r) => .res (.ok (.string s, r))
    else if listMARKER_TINY ≤ b ∧ b ≤ listMARKER_TINY ||| 0x0F then
      pbind (listDeserializeBody (valueTryFromInner fuel) bs) fun (l, r) =>
        .res (.ok (.list l, r))
    else if b = 0xD4 ∨ b = 0xD5 ∨ b = 0xD6 then
      pbind (listDeserializeBody (valueTryFromInner fuel) bs) fun (l, r) =>
        .res (.ok (.list l, r))
    else if mapMARKER_TINY ≤ b ∧ b ≤ mapMARKER_TINY ||| 0x0F then
      pbind (mapDeserializeBody (valueTryFromInner fuel) bs) fun (m, r) =>
        .res (.ok (.map m, r))
    else if b = mapMARKER_SMALL ∨ b = mapMARKER_MEDIUM ∨ b = mapMARKER_LARGE then
      pbind (mapDeserializeBody (valueTryFromInner fuel) bs) fun (m, r) =>
        .res (.ok (.map m, r))
    else if structureMARKER_TINY ≤ b ∧ b ≤ listMARKER_TINY ||| 0x0F then
      deserializeStructure (valueTryFromInner fuel) bs
    else if b = structureMARKER_SMALL ∨ b = structureMARKER_MEDIUM then
      deserializeStructure (valueTryFromInner fuel) bs
    else .res (.error (.invalidMarkerByte b))

/-- The inner `Map` decoder at a given fuel for its `Value` children. -/
def mapTryFromInner (fuel : Nat) (bs : ByteL) : PRes (List (BStr × Value)) :=
  mapDeserializeBody (valueTryFromInner fuel) bs

/-- Public `TryFrom<Arc<Mutex<Bytes>>> for Value`: the inner decoder at
fuel `length + 1` (sufficient, since every recursion level consumes at
least one byte first) inside the `catch_unwind` boundary. -/
def valueTryFromBytes (bs : ByteL) : Except CErr (Value × ByteL) :=
  catchUnwindP (valueTryFromInner (bs.length + 1) bs)

/-- Public `TryFrom<Arc<Mutex<Bytes>>> for Map`: the inner decoder at
fuel `length` inside the `catch_unwind` boundary. -/
def mapTryFromBytes (bs : ByteL) : Except CErr (List (BStr × Value) × ByteL) :=
  catchUnwindP (mapTryFromInner bs.length bs)

/-- `k` nested tiny one-element list markers (`0x91`) around a null
marker: a linear-size input family whose decoding recurses through
`k` `List`/`Value` levels. -/
def nestedListBytes (k : Nat) : ByteL := List.replicate k 0x91 ++ [0xC0]

/-- The value `nestedListBytes k` denotes: `k` nested singleton lists
around `null`. -/
def nestedListValue : Nat → Value
| 0 => .null
| k + 1 => .list [nestedListValue k]

/-- Lookup of the first entry with the given key in the association-list
model of a map. -/
def lookupKey (k : BStr) : List (BStr × Value) → Option Value
| [] => none
| (k1, v) :: tl => if k1 = k then some v else lookupKey k tl

/-- The value of the last occurrence of a key in a sequence of wire
entries. -/
def lookupLast (k : BStr) (m : List (BStr × Value)) : Option Value :=
  lookupKey k m.reverse

/-- Uniqueness of the keys of an association list (the `HashMap`
invariant of a Rust `Map` value). -/
def nodupKeys : List (BStr × Value) → Bool
| [] => true
| (k, _) :: tl => !(tl.any fun p => p.1 = k) && nodupKeys tl

mutual

/-- The structure-free, in-range values: no graph-structure variant
anywhere, integers within `i64`, float bit patterns within 64 bits,
string/list/map sizes within `u32`, and map keys unique (the `HashMap`
invariant).  These are exactly the values whose encoding the decoder
can invert. -/
def simpleValue : Value → Bool
| .null => true
| .boolean _ => true
| .integer i => decide (-9223372036854775808 ≤ i) && decide (i ≤ 9223372036854775807)
| .float bits => decide (bits < 18446744073709551616)
| .string s => decide (s.length ≤ 4294967295)
| .list l => decide (l.length ≤ 4294967295) && simpleValues l
| .map m => decide (m.length ≤ 4294967295) && nodupKeys m && simpleEntries m
| .node _ _ _ => false
| .relationship _ _ _ _ _ => false
| .path _ _ _ => false
| .unboundRelationship _ _ _ => false

/-- Elementwise `simpleValue` over a list. -/
def simpleValues : List Value → Bool
| [] => true
| v :: tl => simpleValue v && simpleValues tl

/-- Entrywise key bound and `simpleValue` over map entries. -/
def simpleEntries : List (BStr × Value) → Bool
| [] => true
| (k, v) :: tl => decide (k.length ≤ 4294967295) && simpleValue v && simpleEntries tl

end

section StreamModel

/-- Outcomes of the network environment, abstracting the asynchronous
I/O of `Stream::connect`: whether a domain string is a valid DNS name
(`DNSNameRef::try_from_ascii_str`), whether the TCP connection and the
TLS handshake succeed. -/
structure NetOracle where
  dnsValid : String → Bool
  tcpOk : Bool
  tlsOk : Bool

/-- The two variants of `Stream` in `bolt-client/src/stream.rs`. -/
inductive StreamV : Type
| tcp
| secureTcp
deriving DecidableEq, Repr

/-- Observable steps `Stream::connect` performs, in order: building the
`ClientConfig` with the bundled `webpki_roots::TLS_SERVER_ROOTS`,
validating the server name, opening the TCP connection, and the TLS
handshake. -/
inductive NetAction : Type
| configureRoots
| dnsValidate (domain : String)
| tcpConnect
| tlsHandshake
deriving DecidableEq, Repr

/-- Error kinds of `bolt-client` connection setup:
`Error::InvalidDNSName` (the spec's `InvalidServerName`), I/O failure,
and TLS handshake failure. -/
inductive ConnErr : Type
| invalidDNSName (domain : String)
| io
| tlsHandshake
deriving DecidableEq, Repr

/-- `Stream::connect` from `bolt-client/src/stream.rs` lines 26-48,
with network outcomes supplied by the oracle: no domain gives plain
TCP; a domain first builds the root store, then validates the DNS name
(failing with `InvalidDNSName` before any TCP connection), then
connects TCP and performs the TLS handshake.  The returned trace lists
the actions taken in order. -/
def streamConnect (o : NetOracle) (domain : Option String) :
    List NetAction × Except ConnErr StreamV :=
  match domain with
  | some d =>
    if o.dnsValid d then
      if o.tcpOk then
        if o.tlsOk then
          ([.configureRoots, .dnsValidate d, .tcpConnect, .tlsHandshake], .ok .secureTcp)
        else
          ([.configureRoots, .dnsValidate d, .tcpConnect, .tlsHandshake],
            .error .tlsHandshake)
      else ([.configureRoots, .dnsValidate d, .tcpConnect], .error .io)
    else ([.configureRoots, .dnsValidate d], .error (.invalidDNSName d))
  | none =>
    if o.tcpOk then ([.tcpConnect], .ok .tcp) else ([.tcpConnect], .error .io)

end StreamModel

section TemporalModel

/-- Modelled from the spec: the temporal-era `Value` enum matched by
`value/date_time_zoned/conversions.rs` (its declaration is not under
`src/`): a representative set of variants plus `DateTimeZoned`, which
per the spec stores `(epoch_seconds:i64, nanos:i32, zone_id:String)`
verbatim. -/
inductive ProtoValue : Type
| null
| boolean (b : Bool)
| integer (i : Int)
| float (bits : Nat)
| string (s : String)
| list (l : List ProtoValue)
| dateTimeZoned (epochSeconds : Int) (nanos : Int) (zoneId : String)

/-- The chrono `DateTime<Tz>` result of the conversion, kept abstract
as the data `timezone.timestamp_opt(epoch_seconds, nanos)` is built
from. -/
structure DateTimeTz where
  timezone : String
  epochSeconds : Int
  nanos : Int

/-- The `timezone.timestamp_opt(..).unwrap()` construction; the source
comments guarantee the unwraps succeed for values held by existing
`DateTimeZoned` objects, so it is modelled as total. -/
def tzTimestamp (zone : String) (secs : Int) (nanos : Int) : DateTimeTz :=
  ⟨zone, secs, nanos⟩

/-- The conversion error `ConversionError::FromValue(value)`, carrying
the original value. -/
inductive ConversionErr : Type
| fromValue (v : ProtoValue)

/-- `TryFrom<Value> for DateTime<Tz>` from
`value/date_time_zoned/conversions.rs` lines 32-48: the
`DateTimeZoned` variant converts, every other variant returns
`ConversionError::FromValue` with the original value. -/
def dateTimeTzTryFromValue : ProtoValue → Except ConversionErr DateTimeTz
| .dateTimeZoned epochSeconds nanos zoneId =>
  .ok (tzTimestamp zoneId epochSeconds nanos)
| v => .error (.fromValue v)

/-- Discriminator for the `DateTimeZoned` variant. -/
def ProtoValue.isDateTimeZoned : ProtoValue → Bool
| .dateTimeZoned _ _ _ => true
| _ => false

end TemporalModel

end BoltRs

namespace BoltRs

/-! ## Helper lemmas on marker constants -/

theorem structTinyUpper : structureMARKER_TINY ||| 0x0F = 0xBF := rfl

theorem listTinyUpper : listMARKER_TINY ||| 0x0F = 0x9F := rfl

theorem mapTinyUpper : mapMARKER_TINY ||| 0x0F = 0xAF := rfl

theorem stringTinyUpper : (0x80 : Nat) ||| 0x0F = 0x8F := rfl

/-! ## Byte-level lemmas -/

/-- Reduction lemmas for `pbind`. -/
theorem pbind_ok {α β : Type} (p : α × ByteL) (f : (α × ByteL) → PRes β) :
    pbind (.res (.ok p)) f = f p := rfl

theorem pbind_err {α β : Type} (e : CErr) (f : (α × ByteL) → PRes β) :
    pbind (.res (.error e)) f = .res (.error e) := rfl

theorem pbind_panic {α β : Type} (f : (α × ByteL) → PRes β) :
    pbind (.panic : PRes α) f = .panic := rfl

theorem pbind_exhausted {α β : Type} (f : (α × ByteL) → PRes β) :
    pbind (.exhausted : PRes α) f = .exhausted := rfl

/-- Tiny map markers: bitwise-or with a small length is addition. -/
theorem mapTinyMarkerEq (len : Nat) (h : len ≤ 15) :
    mapMARKER_TINY ||| len = 0xA0 + len := by
  interval_cases len <;> rfl

/-- Tiny list markers: bitwise-or with a small length is addition. -/
theorem listTinyMarkerEq (len : Nat) (h : len ≤ 15) :
    listMARKER_TINY ||| len = 0x90 + len := by
  interval_cases len <;> rfl

/-- Tiny string markers: bitwise-or with a small length is addition. -/
theorem stringTinyMarkerEq (len : Nat) (h : len ≤ 15) :
    (0x80 : Nat) ||| len = 0x80 + len := by
  interval_cases len <;> rfl

theorem beBytes_length (w n : Nat) : (beBytes w n).length = w := by
  induction w generalizing n with
  | zero => rfl
  | succ w ih => simp [beBytes, ih]

theorem beVal_append_single (l : ByteL) (b : Nat) :
    beVal (l ++ [b]) = beVal l * 256 + b := by
  simp [beVal, List.foldl_append]

theorem beVal_beBytes (w n : Nat) (h : n < 256 ^ w) :
    beVal (beBytes w n) = n := by
  induction w generalizing n with
  | zero =>
    simp [beBytes, beVal]
    omega
  | succ w ih =>
    have hdiv : n / 256 < 256 ^ w := by
      have : 256 ^ (w + 1) = 256 ^ w * 256 := by ring
      omega
    rw [beBytes, beVal_append_single, ih (n / 256) hdiv]
    omega

theorem takeN_exact (xs rest : ByteL) :
    takeN xs.length (xs ++ rest) = .res (.ok (xs, rest)) := by
  have h : xs.length ≤ (xs ++ rest).length := by simp
  simp [takeN, h, List.take_left, List.drop_left]

theorem getU16_beBytes (n : Nat) (rest : ByteL) (h : n < 65536) :
    getU16 (beBytes 2 n ++ rest) = .res (.ok (n, rest)) := by
  have ht := takeN_exact (beBytes 2 n) rest
  rw [beBytes_length] at ht
  simp only [getU16, ht, pbind_ok]
  rw [beVal_beBytes 2 n (by simpa using h)]

theorem getU32_beBytes (n : Nat) (rest : ByteL) (h : n < 4294967296) :
    getU32 (beBytes 4 n ++ rest) = .res (.ok (n, rest)) := by
  have ht := takeN_exact (beBytes 4 n) rest
  rw [beBytes_length] at ht
  simp only [getU32, ht, pbind_ok]
  rw [beVal_beBytes 4 n (by simpa using h)]

theorem take8_beBytes (n : Nat) (rest : ByteL) (h : n < 18446744073709551616) :
    pbind (takeN 8 (beBytes 8 n ++ rest)) (fun (w, r1) => .res (.ok (beVal w, r1))) =
      .res (.ok (n, rest)) := by
  have ht := takeN_exact (beBytes 8 n) rest
  rw [beBytes_length] at ht
  simp only [ht, pbind_ok]
  rw [beVal_beBytes 8 n (by simpa using h)]

theorem maskString (len : Nat) (h : len ≤ 15) : 0x0F &&& (0x80 + len) = len := by
  interval_cases len <;> rfl

theorem maskList (len : Nat) (h : len ≤ 15) : 0x0F &&& (0x90 + len) = len := by
  interval_cases len <;> rfl

theorem maskMap (len : Nat) (h : len ≤ 15) : 0x0F &&& (0xA0 + len) = len := by
  interval_cases len <;> rfl

theorem asI8_low (b : Nat) (h : b ≤ 127) : asI8 b = (b : Int) := by
  have hm : b % 256 = b := Nat.mod_eq_of_lt (by omega)
  rw [asI8, sint, hm, if_pos (show b < 2 ^ (8 - 1) by norm_num; omega)]

theorem asI8_high (b : Nat) (h1 : 128 ≤ b) (h2 : b ≤ 255) :
    asI8 b = (b : Int) - 256 := by
  have hm : b % 256 = b := Nat.mod_eq_of_lt (by omega)
  rw [asI8, sint, hm, if_neg (show ¬ b < 2 ^ (8 - 1) by norm_num; omega)]
  norm_num

/-! ## String decoder correctness -/

/-- Decoding inverts `String` encoding, leaving trailing bytes. -/
theorem stringRT (s : BStr) (bs rest : ByteL) (h : encodeString s = .ok bs) :
    stringTryFromInner (bs ++ rest) = .res (.ok (s, rest)) := by
  by_cases h1 : s.length ≤ 15
  · rw [encodeString, if_pos h1, stringTinyMarkerEq s.length h1] at h
    cases h
    simp only [List.cons_append, stringTryFromInner, getU8, pbind_ok]
    have hc : (0x80 : Nat) ≤ 0x80 + s.length ∧ 0x80 + s.length ≤ 0x80 ||| 0x0F := by
      rw [stringTinyUpper]
      omega
    rw [if_pos hc, maskString s.length h1]
    exact takeN_exact s rest
  · by_cases h2 : s.length ≤ 255
    · rw [encodeString, if_neg h1, if_pos h2] at h
      cases h
      simp only [List.cons_append, stringTryFromInner, getU8, pbind_ok]
      have hc : ¬ ((0x80 : Nat) ≤ 0xD0 ∧ (0xD0 : Nat) ≤ 0x80 ||| 0x0F) := by decide
      rw [if_neg hc, if_pos trivial]
      exact takeN_exact s rest
    · by_cases h3 : s.length ≤ 65535
      · rw [encodeString, if_neg h1, if_neg h2, if_pos h3] at h
        cases h
        simp only [List.cons_append, List.append_assoc, stringTryFromInner,
          getU8, pbind_ok]
        have hc : ¬ ((0x80 : Nat) ≤ 0xD1 ∧ (0xD1 : Nat) ≤ 0x80 ||| 0x0F) := by decide
        rw [if_neg hc, if_neg (by decide), if_pos trivial,
          getU16_beBytes s.length (s ++ rest) (by omega), pbind_ok]
        exact takeN_exact s rest
      · by_cases h4 : s.length ≤ 4294967295
        · rw [encodeString, if_neg h1, if_neg h2, if_neg h3, if_pos h4] at h
          cases h
          simp only [List.cons_append, List.append_assoc, stringTryFromInner,
            getU8, pbind_ok]
          have hc : ¬ ((0x80 : Nat) ≤ 0xD2 ∧ (0xD2 : Nat) ≤ 0x80 ||| 0x0F) := by decide
          rw [if_neg hc, if_neg (by decide), if_neg (by decide), if_pos trivial,
            getU32_beBytes s.length (s ++ rest) (by omega), pbind_ok]
          exact takeN_exact s rest
        · rw [encodeString, if_neg h1, if_neg h2, if_neg h3, if_neg h4] at h
          cases h

/-! ## Dispatch lemmas for the `Value` decoder -/

theorem listTinyUpperN : (144 : Nat) ||| 15 = 159 := rfl

theorem mapTinyUpperN : (160 : Nat) ||| 15 = 175 := rfl

theorem vd_tiny_int_low (f b : Nat) (r : ByteL) (hb : b ≤ 127) :
    valueTryFromInner (f + 1) (b :: r) = .res (.ok (.integer (b : Int), r)) := by
  have ha : asI8 b = (b : Int) := asI8_low b hb
  simp only [valueTryFromInner, nullMARKER, booleanMARKER_FALSE, booleanMARKER_TRUE]
  rw [if_neg (show ¬ b = 192 by omega), if_neg (show ¬ b = 194 by omega),
    if_neg (show ¬ b = 195 by omega),
    if_pos (show -16 ≤ asI8 b ∧ asI8 b ≤ 127 by rw [ha]; constructor <;> omega), ha]

theorem vd_tiny_int_high (f b : Nat) (r : ByteL) (hb1 : 240 ≤ b) (hb2 : b ≤ 255) :
    valueTryFromInner (f + 1) (b :: r) = .res (.ok (.integer ((b : Int) - 256), r)) := by
  have ha : asI8 b = (b : Int) - 256 := asI8_high b (by omega) hb2
  simp only [valueTryFromInner, nullMARKER, booleanMARKER_FALSE, booleanMARKER_TRUE]
  rw [if_neg (show ¬ b = 192 by omega), if_neg (show ¬ b = 194 by omega),
    if_neg (show ¬ b = 195 by omega),
    if_pos (show -16 ≤ asI8 b ∧ asI8 b ≤ 127 by rw [ha]; constructor <;> omega), ha]

theorem vd_string_tiny (f b : Nat) (r : ByteL) (hb1 : 0x80 ≤ b) (hb2 : b ≤ 0x8F) :
    valueTryFromInner (f + 1) (b :: r) =
      pbind (stringTryFromInner (b :: r)) fun (s, r1) => .res (.ok (.string s, r1)) := by
  have ha : asI8 b = (b : Int) - 256 := asI8_high b (by omega) (by omega)
  simp only [valueTryFromInner, nullMARKER, booleanMARKER_FALSE, booleanMARKER_TRUE]
  rw [if_neg (show ¬ b = 192 by omega), if_neg (show ¬ b = 194 by omega),
    if_neg (show ¬ b = 195 by omega),
    if_neg (show ¬ (-16 ≤ asI8 b ∧ asI8 b ≤ 127) by rw [ha]; omega),
    if_neg (show ¬ (b = 200 ∨ b = 201 ∨ b = 202 ∨ b = 203) by omega),
    if_neg (show ¬ b = 193 by omega),
    if_pos (show 128 ≤ b ∧ b ≤ 128 ||| 15 by rw [stringTinyUpper]; omega)]

theorem vd_list_tiny (f b : Nat) (r : ByteL) (hb1 : 0x90 ≤ b) (hb2 : b ≤ 0x9F) :
    valueTryFromInner (f + 1) (b :: r) =
      pbind (listDeserializeBody (valueTryFromInner f) (b :: r)) fun (l, r1) =>
        .res (.ok (.list l, r1)) := by
  have ha : asI8 b = (b : Int) - 256 := asI8_high b (by omega) (by omega)
  simp only [valueTryFromInner, nullMARKER, booleanMARKER_FALSE, booleanMARKER_TRUE,
    listMARKER_TINY]
  rw [if_neg (show ¬ b = 192 by omega), if_neg (show ¬ b = 194 by omega),
    if_neg (show ¬ b = 195 by omega),
    if_neg (show ¬ (-16 ≤ asI8 b ∧ asI8 b ≤ 127) by rw [ha]; omega),
    if_neg (show ¬ (b = 200 ∨ b = 201 ∨ b = 202 ∨ b = 203) by omega),
    if_neg (show ¬ b = 193 by omega),
    if_neg (show ¬ (128 ≤ b ∧ b ≤ 128 ||| 15) by rw [stringTinyUpper]; omega),
    if_neg (show ¬ (b = 208 ∨ b = 209 ∨ b = 210) by omega),
    if_pos (show 144 ≤ b ∧ b ≤ 144 ||| 15 by rw [listTinyUpperN]; omega)]

theorem vd_map_tiny (f b : Nat) (r : ByteL) (hb1 : 0xA0 ≤ b) (hb2 : b ≤ 0xAF) :
    valueTryFromInner (f + 1) (b :: r) =
      pbind (mapDeserializeBody (valueTryFromInner f) (b :: r)) fun (m, r1) =>
        .res (.ok (.map m, r1)) := by
  have ha : asI8 b = (b : Int) - 256 := asI8_high b (by omega) (by omega)
  simp only [valueTryFromInner, nullMARKER, booleanMARKER_FALSE, booleanMARKER_TRUE,
    listMARKER_TINY, mapMARKER_TINY, mapMARKER_SMALL, mapMARKER_MEDIUM, mapMARKER_LARGE]
  rw [if_neg (show ¬ b = 192 by omega), if_neg (show ¬ b = 194 by omega),
    if_neg (show ¬ b = 195 by omega),
    if_neg (show ¬ (-16 ≤ asI8 b ∧ asI8 b ≤ 127) by rw [ha]; omega),
    if_neg (show ¬ (b = 200 ∨ b = 201 ∨ b = 202 ∨ b = 203) by omega),
    if_neg (show ¬ b = 193 by omega),
    if_neg (show ¬ (128 ≤ b ∧ b ≤ 128 ||| 15) by rw [stringTinyUpper]; omega),
    if_neg (show ¬ (b = 208 ∨ b = 209 ∨ b = 210) by omega),
    if_neg (show ¬ (144 ≤ b ∧ b ≤ 144 ||| 15) by rw [listTinyUpperN]; omega),
    if_neg (show ¬ (b = 212 ∨ b = 213 ∨ b = 214) by omega),
    if_pos (show 160 ≤ b ∧ b ≤ 160 ||| 15 by rw [mapTinyUpperN]; omega)]

/-! ## Integer and float roundtrips at the `Value` level -/

theorem integerRT (i : Int) (hlo : -9223372036854775808 ≤ i)
    (hhi : i ≤ 9223372036854775807) (f : Nat) (rest : ByteL) :
    valueTryFromInner (f + 1) (encodeInteger i ++ rest) =
      .res (.ok (.integer i, rest)) := by
  by_cases h1 : -16 ≤ i ∧ i ≤ 127
  · rw [encodeInteger, if_pos h1, List.cons_append, List.nil_append]
    by_cases hpos : 0 ≤ i
    · rw [vd_tiny_int_low f (i % 256).toNat rest (by omega),
        show (((i % 256).toNat : Int)) = i by omega]
    · rw [vd_tiny_int_high f (i % 256).toNat rest (by omega) (by omega),
        show (((i % 256).toNat : Int)) - 256 = i by omega]
  · by_cases h2 : -128 ≤ i ∧ i ≤ 127
    · rw [encodeInteger, if_neg h1, if_pos h2]
      have hkey : sint 8 ((i % 256).toNat) = i := by
        simp only [sint]
        rw [show (2 : Nat) ^ (8 - 1) = 128 from by norm_num,
          show ((2 : Int) ^ 8) = 256 from by norm_num]
        split_ifs with hs <;> omega
      have hd : valueTryFromInner (f + 1) (0xC8 :: ((i % 256).toNat :: rest)) =
          .res (.ok (.integer (sint 8 ((i % 256).toNat)), rest)) := rfl
      simp only [List.cons_append, List.nil_append]
      rw [hd, hkey]
    · by_cases h3 : -32768 ≤ i ∧ i ≤ 32767
      · rw [encodeInteger, if_neg h1, if_neg h2, if_pos h3, List.cons_append]
        have hkey : sint 16 ((i % 65536).toNat) = i := by
          simp only [sint]
          rw [show (2 : Nat) ^ (16 - 1) = 32768 from by norm_num,
            show ((2 : Int) ^ 16) = 65536 from by norm_num]
          split_ifs with hs <;> omega
        have hd : valueTryFromInner (f + 1)
            (0xC9 :: (beBytes 2 (i % 65536).toNat ++ rest)) =
            pbind (integerTryFromInner (0xC9 :: (beBytes 2 (i % 65536).toNat ++ rest)))
              fun (n, r1) => .res (.ok (.integer n, r1)) := rfl
        have hi : integerTryFromInner (0xC9 :: (beBytes 2 (i % 65536).toNat ++ rest)) =
            pbind (getU16 (beBytes 2 (i % 65536).toNat ++ rest)) fun (n, r1) =>
              .res (.ok (sint 16 n, r1)) := rfl
        rw [hd, hi, getU16_beBytes ((i % 65536).toNat) rest (by omega), pbind_ok,
          pbind_ok, hkey]
      · by_cases h4 : -2147483648 ≤ i ∧ i ≤ 2147483647
        · rw [encodeInteger, if_neg h1, if_neg h2, if_neg h3, if_pos h4,
            List.cons_append]
          have hkey : sint 32 ((i % 4294967296).toNat) = i := by
            simp only [sint]
            rw [show (2 : Nat) ^ (32 - 1) = 2147483648 from by norm_num,
              show ((2 : Int) ^ 32) = 4294967296 from by norm_num]
            split_ifs with hs <;> omega
          have hd : valueTryFromInner (f + 1)
              (0xCA :: (beBytes 4 (i % 4294967296).toNat ++ rest)) =
              pbind (integerTryFromInner
                  (0xCA :: (beBytes 4 (i % 4294967296).toNat ++ rest)))
                fun (n, r1) => .res (.ok (.integer n, r1)) := rfl
          have hi : integerTryFromInner
              (0xCA :: (beBytes 4 (i % 4294967296).toNat ++ rest)) =
              pbind (getU32 (beBytes 4 (i % 4294967296).toNat ++ rest)) fun (n, r1) =>
                .res (.ok (sint 32 n, r1)) := rfl
          rw [hd, hi, getU32_beBytes ((i % 4294967296).toNat) rest (by omega),
            pbind_ok, pbind_ok, hkey]
        · rw [encodeInteger, if_neg h1, if_neg h2, if_neg h3, if_neg h4,
            List.cons_append]
          have hkey : sint 64 ((i % 18446744073709551616).toNat) = i := by
            simp only [sint]
            rw [show (2 : Nat) ^ (64 - 1) = 9223372036854775808 from by norm_num,
              show ((2 : Int) ^ 64) = 18446744073709551616 from by norm_num]
            split_ifs with hs <;> omega
          have hd : valueTryFromInner (f + 1)
              (0xCB :: (beBytes 8 (i % 18446744073709551616).toNat ++ rest)) =
              pbind (integerTryFromInner
                  (0xCB :: (beBytes 8 (i % 18446744073709551616).toNat ++ rest)))
                fun (n, r1) => .res (.ok (.integer n, r1)) := rfl
          have hi : integerTryFromInner
              (0xCB :: (beBytes 8 (i % 18446744073709551616).toNat ++ rest)) =
              pbind (takeN 8 (beBytes 8 (i % 18446744073709551616).toNat ++ rest))
                fun (w, r1) => .res (.ok (sint 64 (beVal w), r1)) := rfl
          have ht := takeN_exact (beBytes 8 ((i % 18446744073709551616).toNat)) rest
          rw [beBytes_length] at ht
          simp only [hd, hi, ht, pbind_ok]
          rw [beVal_beBytes 8 ((i % 18446744073709551616).toNat) (by norm_num; omega),
            hkey]

/-- Decoding inverts `Float` encoding at the `Value` level. -/
theorem floatRT (bits : Nat) (hb : bits < 18446744073709551616) (f : Nat)
    (rest : ByteL) :
    valueTryFromInner (f + 1) ((0xC1 :: beBytes 8 bits) ++ rest) =
      .res (.ok (.float bits, rest)) := by
  rw [List.cons_append]
  have hd : valueTryFromInner (f + 1) (0xC1 :: (beBytes 8 bits ++ rest)) =
      pbind (floatTryFromInner (0xC1 :: (beBytes 8 bits ++ rest))) fun (n, r1) =>
        .res (.ok (.float n, r1)) := rfl
  have hi : floatTryFromInner (0xC1 :: (beBytes 8 bits ++ rest)) =
      pbind (takeN 8 (beBytes 8 bits ++ rest)) fun (w, r1) =>
        .res (.ok (beVal w, r1)) := rfl
  have ht := takeN_exact (beBytes 8 bits) rest
  rw [beBytes_length] at ht
  simp only [hd, hi, ht, pbind_ok]
  rw [beVal_beBytes 8 bits (by norm_num; omega)]


/-! ## Loop and body lemmas for collection decoding -/

/-- Inversion of a successful map assembly. -/
theorem mapAssemble_ok_inv (len : Nat) (ebr : Except CErr ByteL) (bs : ByteL)
    (h : mapAssemble len ebr = .ok bs) :
    ∃ marker sz eb, mapGetMarker len = .ok marker ∧ ebr = .ok eb ∧
      sizeHeaderBytes len = .ok sz ∧ bs = marker :: (sz ++ eb) := by
  rw [mapAssemble] at h
  cases hmk : mapGetMarker len with
  | error e => rw [hmk] at h; cases h
  | ok marker =>
    rw [hmk] at h
    cases ebr with
    | error e => cases h
    | ok eb =>
      cases hsz : sizeHeaderBytes len with
      | error e => rw [hsz] at h; cases h
      | ok sz =>
        rw [hsz] at h
        cases h
        exact ⟨marker, sz, eb, rfl, rfl, rfl, rfl⟩

/-- Inversion of a successful list assembly. -/
theorem listAssemble_ok_inv (len : Nat) (vbr : Except CErr ByteL) (bs : ByteL)
    (h : listAssemble len vbr = .ok bs) :
    ∃ marker sz vb, listGetMarker len = .ok marker ∧ vbr = .ok vb ∧
      sizeHeaderBytes len = .ok sz ∧ bs = marker :: (sz ++ vb) := by
  rw [listAssemble] at h
  cases hmk : listGetMarker len with
  | error e => rw [hmk] at h; cases h
  | ok marker =>
    rw [hmk] at h
    cases vbr with
    | error e => cases h
    | ok vb =>
      cases hsz : sizeHeaderBytes len with
      | error e => rw [hsz] at h; cases h
      | ok sz =>
        rw [hsz] at h
        cases h
        exact ⟨marker, sz, vb, rfl, rfl, rfl, rfl⟩

/-- Inversion of a successful entry-list encoding step. -/
theorem encodeEntries_cons_inv (k : BStr) (v : Value) (tl : List (BStr × Value))
    (eb : ByteL) (h : encodeEntries ((k, v) :: tl) = .ok eb) :
    ∃ kb vb tb, encodeString k = .ok kb ∧ encodeValue v = .ok vb ∧
      encodeEntries tl = .ok tb ∧ eb = kb ++ vb ++ tb := by
  rw [encodeEntries] at h
  cases hks : encodeString k with
  | error e => rw [hks] at h; cases h
  | ok kb =>
    rw [hks] at h
    cases hkv : encodeValue v with
    | error e => rw [hkv] at h; cases h
    | ok vb =>
      rw [hkv] at h
      cases het : encodeEntries tl with
      | error e => rw [het] at h; cases h
      | ok tb =>
        rw [het] at h
        cases h
        exact ⟨kb, vb, tb, rfl, rfl, rfl, rfl⟩

/-- Inversion of a successful value-list encoding step. -/
theorem encodeValues_cons_inv (v : Value) (tl : List Value) (vb : ByteL)
    (h : encodeValues (v :: tl) = .ok vb) :
    ∃ b tb, encodeValue v = .ok b ∧ encodeValues tl = .ok tb ∧ vb = b ++ tb := by
  rw [encodeValues] at h
  cases hkv : encodeValue v with
  | error e => rw [hkv] at h; cases h
  | ok b =>
    rw [hkv] at h
    cases het : encodeValues tl with
    | error e => rw [het] at h; cases h
    | ok tb =>
      rw [het] at h
      cases h
      exact ⟨b, tb, rfl, rfl, rfl⟩

/-- Each entry value's encoding is no longer than the whole entry-loop
byte output. -/
theorem encodeEntries_child_bound (m : List (BStr × Value)) (eb : ByteL)
    (he : encodeEntries m = .ok eb) :
    ∀ kv ∈ m, ∀ vb : ByteL, encodeValue kv.2 = .ok vb → vb.length ≤ eb.length := by
  induction m generalizing eb with
  | nil => intro kv hkv; cases hkv
  | cons hd tl ih =>
    intro kv hkv vb hv
    obtain ⟨k, v⟩ := hd
    obtain ⟨kb, vb0, tb, hks, hkv0, het, rfl⟩ := encodeEntries_cons_inv k v tl eb he
    rcases List.mem_cons.mp hkv with heq | hmem
    · subst heq
      rw [hkv0] at hv
      cases hv
      simp only [List.length_append]
      omega
    · have := ih tb het kv hmem vb hv
      simp only [List.length_append]
      omega

/-- Each element's encoding is no longer than the whole element-loop
byte output. -/
theorem encodeValues_child_bound (l : List Value) (vb : ByteL)
    (he : encodeValues l = .ok vb) :
    ∀ v ∈ l, ∀ b : ByteL, encodeValue v = .ok b → b.length ≤ vb.length := by
  induction l generalizing vb with
  | nil => intro v hv; cases hv
  | cons hd tl ih =>
    intro v hv b hb
    obtain ⟨b0, tb, hb0, het, rfl⟩ := encodeValues_cons_inv hd tl vb he
    rcases List.mem_cons.mp hv with heq | hmem
    · subst heq
      rw [hb0] at hb
      cases hb
      simp only [List.length_append]
      omega
    · have := ih tb het v hmem b hb
      simp only [List.length_append]
      omega

/-- The map entry loop inverts the entry encoding, folding each decoded
entry into the accumulator with `HashMap::insert` semantics. -/
theorem mapLoop_encoded (decodeV : ByteL → PRes Value) (m : List (BStr × Value)) :
    ∀ (acc : List (BStr × Value)) (rest eb : ByteL),
      encodeEntries m = .ok eb →
      (∀ kv ∈ m, ∀ (vb r : ByteL), encodeValue kv.2 = .ok vb →
        decodeV (vb ++ r) = .res (.ok (kv.2, r))) →
      mapLoop decodeV m.length acc (eb ++ rest) =
        .res (.ok (m.foldl insertPair acc, rest)) := by
  induction m with
  | nil =>
    intro acc rest eb he _
    rw [encodeEntries] at he
    cases he
    rfl
  | cons hd tl ih =>
    intro acc rest eb he Hdec
    obtain ⟨k, v⟩ := hd
    obtain ⟨kb, vb, tb, hks, hkv, het, rfl⟩ := encodeEntries_cons_inv k v tl eb he
    have hs := stringRT k kb (vb ++ (tb ++ rest)) hks
    have hv := Hdec (k, v) (List.mem_cons_self _ _) vb (tb ++ rest) hkv
    simp only [List.length_cons, List.append_assoc]
    rw [mapLoop]
    simp only [List.append_assoc] at hs hv
    simp only [hs, pbind_ok, hv]
    rw [List.foldl_cons]
    exact ih (insertPair acc (k, v)) rest tb het
      (fun kv hm vb r hvb => Hdec kv (List.mem_cons_of_mem _ hm) vb r hvb)

/-- The list element loop inverts the element encoding, appending each
decoded element to the accumulator. -/
theorem listLoop_encoded (decodeV : ByteL → PRes Value) (l : List Value) :
    ∀ (acc : List Value) (rest vb : ByteL),
      encodeValues l = .ok vb →
      (∀ v ∈ l, ∀ (b r : ByteL), encodeValue v = .ok b →
        decodeV (b ++ r) = .res (.ok (v, r))) →
      listLoop decodeV l.length acc (vb ++ rest) = .res (.ok (acc ++ l, rest)) := by
  induction l with
  | nil =>
    intro acc rest vb he _
    rw [encodeValues] at he
    cases he
    simp [listLoop]
  | cons hd tl ih =>
    intro acc rest vb he Hdec
    obtain ⟨b, tb, hb, het, rfl⟩ := encodeValues_cons_inv hd tl vb he
    have hv := Hdec hd (List.mem_cons_self _ _) b (tb ++ rest) hb
    simp only [List.length_cons, List.append_assoc]
    rw [listLoop]
    simp only [List.append_assoc] at hv
    simp only [hv, pbind_ok]
    have := ih (acc ++ [hd]) rest tb het
      (fun v hm b r hvb => Hdec v (List.mem_cons_of_mem _ hm) b r hvb)
    rw [this]
    simp

/-- The `Map` decoder body inverts `Map` encoding: marker and size are
read back, then the entry loop folds the entries from empty. -/
theorem mapBody_encoded (decodeV : ByteL → PRes Value) (m : List (BStr × Value))
    (bs rest : ByteL) (hb : encodeMap m = .ok bs)
    (Hdec : ∀ kv ∈ m, ∀ (vb r : ByteL), encodeValue kv.2 = .ok vb →
      decodeV (vb ++ r) = .res (.ok (kv.2, r))) :
    mapDeserializeBody decodeV (bs ++ rest) =
      .res (.ok (m.foldl insertPair [], rest)) := by
  rw [encodeMap] at hb
  obtain ⟨marker, sz, eb, hmk, he, hsz, rfl⟩ :=
    mapAssemble_ok_inv m.length (encodeEntries m) bs hb
  by_cases h1 : m.length ≤ 15
  · rw [mapGetMarker, if_pos h1, mapTinyMarkerEq _ h1] at hmk
    cases hmk
    rw [sizeHeaderBytes, if_pos h1] at hsz
    cases hsz
    simp only [List.nil_append, List.cons_append]
    simp only [mapDeserializeBody, getU8, pbind_ok, mapMARKER_TINY,
      mapMARKER_SMALL, mapMARKER_MEDIUM, mapMARKER_LARGE]
    rw [if_pos (show 160 ≤ 160 + m.length ∧ 160 + m.length ≤ 160 ||| 15 by
        rw [mapTinyUpperN]; omega),
      maskMap m.length h1]
    exact mapLoop_encoded decodeV m [] rest eb he Hdec
  · by_cases h2 : m.length ≤ 255
    · rw [mapGetMarker, if_neg h1, if_pos h2] at hmk
      cases hmk
      rw [sizeHeaderBytes, if_neg h1, if_pos h2] at hsz
      cases hsz
      simp only [List.cons_append, List.append_assoc]
      simp only [mapDeserializeBody, getU8, pbind_ok, mapMARKER_TINY,
        mapMARKER_SMALL, mapMARKER_MEDIUM, mapMARKER_LARGE]
      rw [if_neg (by decide), if_pos trivial]
      exact mapLoop_encoded decodeV m [] rest eb he Hdec
    · by_cases h3 : m.length ≤ 65535
      · rw [mapGetMarker, if_neg h1, if_neg h2, if_pos h3] at hmk
        cases hmk
        rw [sizeHeaderBytes, if_neg h1, if_neg h2, if_pos h3] at hsz
        cases hsz
        simp only [List.cons_append, List.append_assoc]
        simp only [mapDeserializeBody, getU8, pbind_ok, mapMARKER_TINY,
          mapMARKER_SMALL, mapMARKER_MEDIUM, mapMARKER_LARGE]
        rw [if_neg (by decide), if_neg (by decide), if_pos trivial,
          getU16_beBytes m.length (eb ++ rest) (by omega), pbind_ok]
        exact mapLoop_encoded decodeV m [] rest eb he Hdec
      · by_cases h4 : m.length ≤ 4294967295
        · rw [mapGetMarker, if_neg h1, if_neg h2, if_neg h3, if_pos h4] at hmk
          cases hmk
          rw [sizeHeaderBytes, if_neg h1, if_neg h2, if_neg h3, if_pos h4] at hsz
          cases hsz
          simp only [List.cons_append, List.append_assoc]
          simp only [mapDeserializeBody, getU8, pbind_ok, mapMARKER_TINY,
            mapMARKER_SMALL, mapMARKER_MEDIUM, mapMARKER_LARGE]
          rw [if_neg (by decide), if_neg (by decide), if_neg (by decide),
            if_pos trivial, getU32_beBytes m.length (eb ++ rest) (by omega),
            pbind_ok]
          exact mapLoop_encoded decodeV m [] rest eb he Hdec
        · rw [mapGetMarker, if_neg h1, if_neg h2, if_neg h3, if_neg h4] at hmk
          cases hmk

/-- The `List` decoder body inverts `List` encoding. -/
theorem listBody_encoded (decodeV : ByteL → PRes Value) (l : List Value)
    (bs rest : ByteL) (hb : listAssemble l.length (encodeValues l) = .ok bs)
    (Hdec : ∀ v ∈ l, ∀ (b r : ByteL), encodeValue v = .ok b →
      decodeV (b ++ r) = .res (.ok (v, r))) :
    listDeserializeBody decodeV (bs ++ rest) = .res (.ok (l, rest)) := by
  obtain ⟨marker, sz, vb, hmk, he, hsz, rfl⟩ :=
    listAssemble_ok_inv l.length (encodeValues l) bs hb
  have hloop := listLoop_encoded decodeV l [] rest vb he Hdec
  rw [List.nil_append] at hloop
  by_cases h1 : l.length ≤ 15
  · rw [listGetMarker, if_pos h1, listTinyMarkerEq _ h1] at hmk
    cases hmk
    rw [sizeHeaderBytes, if_pos h1] at hsz
    cases hsz
    simp only [List.nil_append, List.cons_append]
    simp only [listDeserializeBody, getU8, pbind_ok, listMARKER_TINY]
    rw [if_pos (show 144 ≤ 144 + l.length ∧ 144 + l.length ≤ 144 ||| 15 by
        rw [listTinyUpperN]; omega),
      maskList l.length h1]
    exact hloop
  · by_cases h2 : l.length ≤ 255
    · rw [listGetMarker, if_neg h1, if_pos h2] at hmk
      cases hmk
      rw [sizeHeaderBytes, if_neg h1, if_pos h2] at hsz
      cases hsz
      simp only [List.cons_append, List.append_assoc]
      simp only [listDeserializeBody, getU8, pbind_ok, listMARKER_TINY]
      rw [if_neg (by decide), if_pos trivial]
      exact hloop
    · by_cases h3 : l.length ≤ 65535
      · rw [listGetMarker, if_neg h1, if_neg h2, if_pos h3] at hmk
        cases hmk
        rw [sizeHeaderBytes, if_neg h1, if_neg h2, if_pos h3] at hsz
        cases hsz
        simp only [List.cons_append, List.append_assoc]
        simp only [listDeserializeBody, getU8, pbind_ok, listMARKER_TINY]
        rw [if_neg (by decide), if_neg (by decide), if_pos trivial,
          getU16_beBytes l.length (vb ++ rest) (by omega), pbind_ok]
        exact hloop
      · by_cases h4 : l.length ≤ 4294967295
        · rw [listGetMarker, if_neg h1, if_neg h2, if_neg h3, if_pos h4] at hmk
          cases hmk
          rw [sizeHeaderBytes, if_neg h1, if_neg h2, if_neg h3, if_pos h4] at hsz
          cases hsz
          simp only [List.cons_append, List.append_assoc]
          simp only [listDeserializeBody, getU8, pbind_ok, listMARKER_TINY]
          rw [if_neg (by decide), if_neg (by decide), if_neg (by decide),
            if_pos trivial, getU32_beBytes l.length (vb ++ rest) (by omega),
            pbind_ok]
          exact hloop
        · rw [listGetMarker, if_neg h1, if_neg h2, if_neg h3, if_neg h4] at hmk
          cases hmk


/-! ## Insert and lookup lemmas for the association-list map -/

theorem optSomeOr (a : Value) (x : Option Value) : (some a).or x = some a := rfl

theorem optNoneOr (x : Option Value) : (none : Option Value).or x = x := by
  cases x <;> rfl

theorem optOrNone (x : Option Value) : x.or none = x := by
  cases x <;> rfl

theorem optOrAssoc (x y z : Option Value) : (x.or y).or z = x.or (y.or z) := by
  cases x <;> rfl

theorem lookupKey_eq_none (acc : List (BStr × Value)) (k : BStr)
    (h : (acc.any fun p => p.1 = k) = false) : lookupKey k acc = none := by
  induction acc with
  | nil => rfl
  | cons hd tl ih =>
    obtain ⟨k1, v1⟩ := hd
    simp only [List.any_cons, Bool.or_eq_false_iff] at h
    rw [lookupKey, if_neg (by simpa using h.1)]
    exact ih h.2

theorem lookupKey_append (l1 l2 : List (BStr × Value)) (k : BStr) :
    lookupKey k (l1 ++ l2) = (lookupKey k l1).or (lookupKey k l2) := by
  induction l1 with
  | nil => simp [lookupKey, optNoneOr]
  | cons hd tl ih =>
    obtain ⟨k1, v1⟩ := hd
    by_cases h : k1 = k
    · simp only [List.cons_append, lookupKey, if_pos h, optSomeOr]
    · simp only [List.cons_append, lookupKey, if_neg h]
      exact ih

theorem insertPair_fresh (acc : List (BStr × Value)) (kv : BStr × Value)
    (h : (acc.any fun p => p.1 = kv.1) = false) :
    insertPair acc kv = acc ++ [kv] := by
  rw [insertPair, h]
  rfl

theorem lookupKey_replace (acc : List (BStr × Value)) (k1 : BStr) (v : Value)
    (k : BStr) :
    lookupKey k (acc.map fun p => if p.1 = k1 then (p.1, v) else p) =
      if k = k1 then (if (acc.any fun p => p.1 = k1) = true then some v else none)
      else lookupKey k acc := by
  induction acc with
  | nil =>
    simp [lookupKey]
  | cons hd tl ih =>
    obtain ⟨ka, va⟩ := hd
    simp only [List.map_cons]
    by_cases hh : ka = k1
    · rw [if_pos hh]
      by_cases hk : ka = k
      · subst hk
        simp [lookupKey, hh, List.any_cons]
      · have hkk : ¬ k = k1 := fun hc => hk (by rw [hh, hc])
        simp [lookupKey, hk, hkk, ih]
    · rw [if_neg hh]
      by_cases hk : ka = k
      · subst hk
        simp [lookupKey, hh, fun hc : ka = k1 => hh hc]
      · simp [lookupKey, hh, hk, ih, List.any_cons]
        rw [decide_eq_false hh, Bool.false_or]

theorem lookupKey_insertPair (acc : List (BStr × Value)) (kv : BStr × Value)
    (k : BStr) :
    lookupKey k (insertPair acc kv) =
      if kv.1 = k then some kv.2 else lookupKey k acc := by
  rw [insertPair]
  by_cases hmem : (acc.any fun p => p.1 = kv.1) = true
  · rw [if_pos hmem, lookupKey_replace]
    by_cases hkk : kv.1 = k
    · rw [if_pos (hkk.symm), if_pos hmem, if_pos hkk]
    · rw [if_neg (fun hc => hkk hc.symm), if_neg hkk]
  · rw [if_neg hmem, lookupKey_append]
    by_cases hkk : kv.1 = k
    · have hfalse : (acc.any fun p => p.1 = kv.1) = false := by
        cases hb : (acc.any fun p => p.1 = kv.1) with
        | false => rfl
        | true => exact absurd hb hmem
      have hnone : lookupKey k acc = none := by
        apply lookupKey_eq_none
        rw [← hkk]
        exact hfalse
      obtain ⟨k1, v1⟩ := kv
      rw [hnone, optNoneOr, lookupKey, if_pos hkk, if_pos hkk]
    · obtain ⟨k1, v1⟩ := kv
      have hsingle : lookupKey k [(k1, v1)] = none := by
        rw [lookupKey, if_neg hkk]
        rfl
      rw [hsingle, optOrNone, if_neg hkk]

theorem lookupKey_foldl_insertPair (m : List (BStr × Value)) :
    ∀ (acc : List (BStr × Value)) (k : BStr),
      lookupKey k (m.foldl insertPair acc) =
        (lookupLast k m).or (lookupKey k acc) := by
  induction m with
  | nil =>
    intro acc k
    simp [lookupLast, lookupKey, optNoneOr]
  | cons hd tl ih =>
    intro acc k
    obtain ⟨k1, v1⟩ := hd
    rw [List.foldl_cons, ih, lookupKey_insertPair]
    have hrev : lookupLast k ((k1, v1) :: tl) =
        (lookupLast k tl).or (if k1 = k then some v1 else none) := by
      rw [lookupLast, List.reverse_cons, lookupKey_append, lookupLast]
      congr 1
    rw [hrev, optOrAssoc]
    congr 1
    by_cases hkk : k1 = k
    · rw [if_pos hkk, if_pos hkk, optSomeOr]
    · rw [if_neg hkk, if_neg hkk, optNoneOr]

theorem insertPair_length (acc : List (BStr × Value)) (kv : BStr × Value) :
    (insertPair acc kv).length ≤ acc.length + 1 := by
  rw [insertPair]
  split_ifs <;> simp

theorem foldl_insertPair_length (m : List (BStr × Value)) :
    ∀ acc : List (BStr × Value),
      (m.foldl insertPair acc).length ≤ acc.length + m.length := by
  induction m with
  | nil => intro acc; simp
  | cons hd tl ih =>
    intro acc
    rw [List.foldl_cons]
    have h1 := ih (insertPair acc hd)
    have h2 := insertPair_length acc hd
    simp only [List.length_cons]
    omega

theorem foldl_insertPair_append (m : List (BStr × Value)) :
    ∀ acc : List (BStr × Value),
      (∀ p ∈ acc, ∀ q ∈ m, ¬ p.1 = q.1) → nodupKeys m = true →
      m.foldl insertPair acc = acc ++ m := by
  induction m with
  | nil => intro acc _ _; simp
  | cons hd tl ih =>
    intro acc hdisj hnd
    obtain ⟨k, v⟩ := hd
    rw [nodupKeys, Bool.and_eq_true] at hnd
    have hfr : (tl.any fun p => p.1 = k) = false := by
      cases hb : (tl.any fun p => p.1 = k) with
      | false => rfl
      | true =>
        have h1 := hnd.1
        rw [hb] at h1
        simp at h1
    have hacc : (acc.any fun p => p.1 = k) = false := by
      cases hb : (acc.any fun p => p.1 = k) with
      | false => rfl
      | true =>
        rw [List.any_eq_true] at hb
        obtain ⟨p, hp, hpk⟩ := hb
        exact absurd (by simpa using hpk)
          (hdisj p hp (k, v) (List.mem_cons_self _ _))
    have hdisj2 : ∀ p ∈ acc ++ [(k, v)], ∀ q ∈ tl, ¬ p.1 = q.1 := by
      intro p hp q hq
      rcases List.mem_append.mp hp with hpa | hpe
      · exact hdisj p hpa q (List.mem_cons_of_mem _ hq)
      · have hpkv : p = (k, v) := by simpa using hpe
        subst hpkv
        rw [List.any_eq_false] at hfr
        exact fun hc => (by simpa using hfr q hq : ¬ q.1 = k) hc.symm
    rw [List.foldl_cons, insertPair_fresh acc (k, v) hacc,
      ih (acc ++ [(k, v)]) hdisj2 hnd.2]
    simp

/-! ## Membership and length facts -/

theorem simpleValues_mem (l : List Value) (h : simpleValues l = true) :
    ∀ v ∈ l, simpleValue v = true := by
  induction l with
  | nil => intro v hv; cases hv
  | cons hd tl ih =>
    rw [simpleValues, Bool.and_eq_true] at h
    intro v hv
    rcases List.mem_cons.mp hv with heq | hmem
    · subst heq; exact h.1
    · exact ih h.2 v hmem

theorem simpleEntries_mem (m : List (BStr × Value)) (h : simpleEntries m = true) :
    ∀ kv ∈ m, simpleValue kv.2 = true := by
  induction m with
  | nil => intro kv hkv; cases hkv
  | cons hd tl ih =>
    obtain ⟨k, v⟩ := hd
    rw [simpleEntries, Bool.and_eq_true, Bool.and_eq_true] at h
    intro kv hkv
    rcases List.mem_cons.mp hkv with heq | hmem
    · subst heq; exact h.1.2
    · exact ih h.2 kv hmem

theorem encodeInteger_length_pos (i : Int) : 0 < (encodeInteger i).length := by
  rw [encodeInteger]
  split_ifs <;> simp

theorem encodeString_length_pos (s : BStr) (bs : ByteL)
    (h : encodeString s = .ok bs) : 0 < bs.length := by
  rw [encodeString] at h
  split_ifs at h <;> (cases h; simp)

/-! ## Dispatch helpers for encoded strings, lists and maps -/

theorem stringDispatch (f : Nat) (s : BStr) (bs r : ByteL)
    (h : encodeString s = .ok bs) :
    valueTryFromInner (f + 1) (bs ++ r) =
      pbind (stringTryFromInner (bs ++ r)) fun (s1, r1) =>
        .res (.ok (.string s1, r1)) := by
  rw [encodeString] at h
  split_ifs at h with h1 h2 h3 h4
  · cases h
    rw [stringTinyMarkerEq s.length h1, List.cons_append]
    exact vd_string_tiny f (0x80 + s.length) (s ++ r) (by omega) (by omega)
  · cases h
    rfl
  · cases h
    rfl
  · cases h
    rfl

theorem listDispatch (f : Nat) (l : List Value) (bs r : ByteL)
    (h : listAssemble l.length (encodeValues l) = .ok bs) :
    valueTryFromInner (f + 1) (bs ++ r) =
      pbind (listDeserializeBody (valueTryFromInner f) (bs ++ r)) fun (l1, r1) =>
        .res (.ok (.list l1, r1)) := by
  obtain ⟨marker, sz, vb, hmk, _, _, rfl⟩ := listAssemble_ok_inv l.length _ bs h
  rw [listGetMarker] at hmk
  split_ifs at hmk with h1 h2 h3 h4
  · cases hmk
    rw [listTinyMarkerEq l.length h1, List.cons_append]
    exact vd_list_tiny f (0x90 + l.length) _ (by omega) (by omega)
  · cases hmk
    rfl
  · cases hmk
    rfl
  · cases hmk
    rfl

theorem mapDispatch (f : Nat) (m : List (BStr × Value)) (bs r : ByteL)
    (h : encodeMap m = .ok bs) :
    valueTryFromInner (f + 1) (bs ++ r) =
      pbind (mapDeserializeBody (valueTryFromInner f) (bs ++ r)) fun (m1, r1) =>
        .res (.ok (.map m1, r1)) := by
  rw [encodeMap] at h
  obtain ⟨marker, sz, eb, hmk, _, _, rfl⟩ := mapAssemble_ok_inv m.length _ bs h
  rw [mapGetMarker] at hmk
  split_ifs at hmk with h1 h2 h3 h4
  · cases hmk
    rw [mapTinyMarkerEq m.length h1, List.cons_append]
    exact vd_map_tiny f (0xA0 + m.length) _ (by omega) (by omega)
  · cases hmk
    rfl
  · cases hmk
    rfl
  · cases hmk
    rfl


/-! ## Main roundtrip theorem for structure-free values -/

/-- Decoding inverts encoding for every structure-free, in-range value,
at any fuel at least the encoding's length, leaving trailing bytes. -/
theorem valueRT : ∀ (N : Nat) (v : Value), sizeOf v ≤ N → simpleValue v = true →
    ∀ bs : ByteL, encodeValue v = .ok bs → ∀ (rest : ByteL) (f : Nat),
      bs.length ≤ f → valueTryFromInner f (bs ++ rest) = .res (.ok (v, rest)) := by
  intro N
  induction N using Nat.strong_induction_on with
  | _ N IH =>
  intro v hsz hsimple bs henc rest f hf
  cases v with
  | null =>
    rw [encodeValue] at henc
    cases henc
    obtain ⟨f1, rfl⟩ : ∃ f1, f = f1 + 1 := ⟨f - 1, by simp at hf; omega⟩
    rfl
  | boolean b =>
    rw [encodeValue] at henc
    cases b <;> cases henc <;>
      (obtain ⟨f1, rfl⟩ : ∃ f1, f = f1 + 1 := ⟨f - 1, by simp at hf; omega⟩) <;> rfl
  | integer i =>
    simp only [simpleValue, Bool.and_eq_true, decide_eq_true_eq] at hsimple
    rw [encodeValue] at henc
    cases henc
    obtain ⟨f1, rfl⟩ : ∃ f1, f = f1 + 1 :=
      ⟨f - 1, by have := encodeInteger_length_pos i; omega⟩
    exact integerRT i hsimple.1 hsimple.2 f1 rest
  | float bits =>
    simp only [simpleValue, decide_eq_true_eq] at hsimple
    rw [encodeValue] at henc
    cases henc
    obtain ⟨f1, rfl⟩ : ∃ f1, f = f1 + 1 := ⟨f - 1, by simp at hf; omega⟩
    exact floatRT bits hsimple f1 rest
  | string s =>
    rw [encodeValue] at henc
    obtain ⟨f1, rfl⟩ : ∃ f1, f = f1 + 1 :=
      ⟨f - 1, by have := encodeString_length_pos s bs henc; omega⟩
    rw [stringDispatch f1 s bs rest henc]
    simp only [stringRT s bs rest henc, pbind_ok]
  | list l =>
    simp only [simpleValue, Bool.and_eq_true, decide_eq_true_eq] at hsimple
    rw [encodeValue] at henc
    obtain ⟨marker, sz, vb, hmk, hvb, hsz2, hbs⟩ :=
      listAssemble_ok_inv l.length _ bs henc
    have hlen : bs.length = sz.length + vb.length + 1 := by
      rw [hbs]
      simp [List.length_append]
    obtain ⟨f1, rfl⟩ : ∃ f1, f = f1 + 1 := ⟨f - 1, by omega⟩
    rw [listDispatch f1 l bs rest henc]
    have Hdec : ∀ v1 ∈ l, ∀ (b r : ByteL), encodeValue v1 = .ok b →
        valueTryFromInner f1 (b ++ r) = .res (.ok (v1, r)) := by
      intro v1 hv1 b r hb
      have hchild : sizeOf v1 < sizeOf (Value.list l) := by
        have := List.sizeOf_lt_of_mem hv1
        simp only [Value.list.sizeOf_spec]
        omega
      have hbnd := encodeValues_child_bound l vb hvb v1 hv1 b hb
      exact IH (sizeOf v1) (lt_of_lt_of_le hchild hsz) v1 le_rfl
        (simpleValues_mem l hsimple.2 v1 hv1) b hb r f1 (by omega)
    simp only [listBody_encoded (valueTryFromInner f1) l bs rest henc Hdec, pbind_ok]
  | map m =>
    simp only [simpleValue, Bool.and_eq_true, decide_eq_true_eq] at hsimple
    rw [encodeValue] at henc
    have henc2 : encodeMap m = .ok bs := by rw [encodeMap]; exact henc
    obtain ⟨marker, sz, eb, hmk, heb, hsz2, hbs⟩ :=
      mapAssemble_ok_inv m.length _ bs henc
    have hlen : bs.length = sz.length + eb.length + 1 := by
      rw [hbs]
      simp [List.length_append]
    obtain ⟨f1, rfl⟩ : ∃ f1, f = f1 + 1 := ⟨f - 1, by omega⟩
    rw [mapDispatch f1 m bs rest henc2]
    have Hdec : ∀ kv ∈ m, ∀ (vb r : ByteL), encodeValue kv.2 = .ok vb →
        valueTryFromInner f1 (vb ++ r) = .res (.ok (kv.2, r)) := by
      intro kv hkv vb r hvb
      obtain ⟨kk, vv⟩ := kv
      have hchild : sizeOf (Value.map m) > sizeOf vv := by
        have h1 := List.sizeOf_lt_of_mem hkv
        have h2 : sizeOf ((kk, vv) : BStr × Value) = 1 + sizeOf kk + sizeOf vv := by
          simp

        simp only [Value.map.sizeOf_spec]
        omega
      have hbnd := encodeEntries_child_bound m eb heb (kk, vv) hkv vb hvb
      exact IH (sizeOf vv) (lt_of_lt_of_le hchild hsz) vv le_rfl
        (simpleEntries_mem m hsimple.2 (kk, vv) hkv) vb hvb r f1 (by omega)
    have hbody := mapBody_encoded (valueTryFromInner f1) m bs rest henc2 Hdec
    rw [foldl_insertPair_append m []
      (fun p hp => absurd hp (List.not_mem_nil p)) hsimple.1.2,
      List.nil_append] at hbody
    simp only [hbody, pbind_ok]
  | node id labels properties => simp [simpleValue] at hsimple
  | relationship id s e t properties => simp [simpleValue] at hsimple
  | path nodes rels seq => simp [simpleValue] at hsimple
  | unboundRelationship id t properties => simp [simpleValue] at hsimple


/-! ## Consumption and exhaustion-freedom of the decoders -/

theorem pbind_ok_inv {α β : Type} (x : PRes α) (f : (α × ByteL) → PRes β)
    (q : β × ByteL) (h : pbind x f = .res (.ok q)) :
    ∃ p, x = .res (.ok p) ∧ f p = .res (.ok q) := by
  cases x with
  | panic => simp [pbind] at h
  | exhausted => simp [pbind] at h
  | res r =>
    cases r with
    | error e => simp [pbind] at h
    | ok p => exact ⟨p, rfl, h⟩

theorem pbind_ne_exhausted {α β : Type} (x : PRes α) (f : (α × ByteL) → PRes β)
    (hx : x ≠ .exhausted) (hf : ∀ p, f p ≠ .exhausted) :
    pbind x f ≠ .exhausted := by
  cases x with
  | panic => simp [pbind]
  | exhausted => exact absurd rfl hx
  | res r =>
    cases r with
    | error e => simp [pbind]
    | ok p => exact hf p

theorem getU8_cons (bs : ByteL) (b : Nat) (r : ByteL)
    (h : getU8 bs = .res (.ok (b, r))) : r.length < bs.length := by
  cases bs with
  | nil => simp [getU8] at h
  | cons hd tl =>
    rw [getU8] at h
    cases h
    simp

theorem getU8_ne_exhausted (bs : ByteL) : getU8 bs ≠ .exhausted := by
  cases bs <;> simp [getU8]

theorem takeN_cons (n : Nat) (bs : ByteL) (l r : ByteL)
    (h : takeN n bs = .res (.ok (l, r))) : r.length ≤ bs.length := by
  rw [takeN] at h
  split_ifs at h
  cases h
  simp

theorem takeN_ne_exhausted (n : Nat) (bs : ByteL) : takeN n bs ≠ .exhausted := by
  rw [takeN]
  split_ifs <;> simp

theorem getU16_cons (bs : ByteL) (n : Nat) (r : ByteL)
    (h : getU16 bs = .res (.ok (n, r))) : r.length ≤ bs.length := by
  rw [getU16] at h
  obtain ⟨⟨w, r1⟩, ht, h2⟩ := pbind_ok_inv _ _ _ h
  cases h2
  exact takeN_cons _ _ _ _ ht

theorem getU16_ne_exhausted (bs : ByteL) : getU16 bs ≠ .exhausted := by
  rw [getU16]
  exact pbind_ne_exhausted _ _ (takeN_ne_exhausted _ _) (fun p => by simp)

theorem getU32_cons (bs : ByteL) (n : Nat) (r : ByteL)
    (h : getU32 bs = .res (.ok (n, r))) : r.length ≤ bs.length := by
  rw [getU32] at h
  obtain ⟨⟨w, r1⟩, ht, h2⟩ := pbind_ok_inv _ _ _ h
  cases h2
  exact takeN_cons _ _ _ _ ht

theorem getU32_ne_exhausted (bs : ByteL) : getU32 bs ≠ .exhausted := by
  rw [getU32]
  exact pbind_ne_exhausted _ _ (takeN_ne_exhausted _ _) (fun p => by simp)

theorem stringF_cons (bs : ByteL) (s : BStr) (r : ByteL)
    (h : stringTryFromInner bs = .res (.ok (s, r))) : r.length < bs.length := by
  rw [stringTryFromInner] at h
  obtain ⟨⟨m, r1⟩, hg, h2⟩ := pbind_ok_inv _ _ _ h
  have h1 := getU8_cons _ _ _ hg
  simp only [] at h2
  split_ifs at h2
  · exact lt_of_le_of_lt (takeN_cons _ _ _ _ h2) h1
  · obtain ⟨⟨sz, r2⟩, hgz, h3⟩ := pbind_ok_inv _ _ _ h2
    simp only [] at h3
    have h4 := getU8_cons _ _ _ hgz
    have h5 := takeN_cons _ _ _ _ h3
    omega
  · obtain ⟨⟨sz, r2⟩, hgz, h3⟩ := pbind_ok_inv _ _ _ h2
    simp only [] at h3
    have h4 := getU16_cons _ _ _ hgz
    have h5 := takeN_cons _ _ _ _ h3
    omega
  · obtain ⟨⟨sz, r2⟩, hgz, h3⟩ := pbind_ok_inv _ _ _ h2
    simp only [] at h3
    have h4 := getU32_cons _ _ _ hgz
    have h5 := takeN_cons _ _ _ _ h3
    omega
  · simp at h2

theorem stringF_ne_exhausted (bs : ByteL) : stringTryFromInner bs ≠ .exhausted := by
  rw [stringTryFromInner]
  apply pbind_ne_exhausted _ _ (getU8_ne_exhausted bs)
  intro ⟨m, r⟩
  simp only []
  split_ifs
  · exact takeN_ne_exhausted _ _
  · exact pbind_ne_exhausted _ _ (getU8_ne_exhausted _)
      (fun p => takeN_ne_exhausted _ _)
  · exact pbind_ne_exhausted _ _ (getU16_ne_exhausted _)
      (fun p => takeN_ne_exhausted _ _)
  · exact pbind_ne_exhausted _ _ (getU32_ne_exhausted _)
      (fun p => takeN_ne_exhausted _ _)
  · simp

theorem integerF_cons (bs : ByteL) (i : Int) (r : ByteL)
    (h : integerTryFromInner bs = .res (.ok (i, r))) : r.length < bs.length := by
  rw [integerTryFromInner] at h
  obtain ⟨⟨m, r1⟩, hg, h2⟩ := pbind_ok_inv _ _ _ h
  have h1 := getU8_cons _ _ _ hg
  simp only [] at h2
  split_ifs at h2
  · obtain ⟨⟨n, r2⟩, hgz, h3⟩ := pbind_ok_inv _ _ _ h2
    simp only [] at h3
    have h4 := getU8_cons _ _ _ hgz
    cases h3
    omega
  · obtain ⟨⟨n, r2⟩, hgz, h3⟩ := pbind_ok_inv _ _ _ h2
    simp only [] at h3
    have h4 := getU16_cons _ _ _ hgz
    cases h3
    omega
  · obtain ⟨⟨n, r2⟩, hgz, h3⟩ := pbind_ok_inv _ _ _ h2
    simp only [] at h3
    have h4 := getU32_cons _ _ _ hgz
    cases h3
    omega
  · obtain ⟨⟨w, r2⟩, hgz, h3⟩ := pbind_ok_inv _ _ _ h2
    simp only [] at h3
    have h4 := takeN_cons _ _ _ _ hgz
    cases h3
    omega
  · simp at h2

theorem integerF_ne_exhausted (bs : ByteL) : integerTryFromInner bs ≠ .exhausted := by
  rw [integerTryFromInner]
  apply pbind_ne_exhausted _ _ (getU8_ne_exhausted bs)
  intro ⟨m, r⟩
  simp only []
  split_ifs
  · exact pbind_ne_exhausted _ _ (getU8_ne_exhausted _) (fun p => by simp)
  · exact pbind_ne_exhausted _ _ (getU16_ne_exhausted _) (fun p => by simp)
  · exact pbind_ne_exhausted _ _ (getU32_ne_exhausted _) (fun p => by simp)
  · exact pbind_ne_exhausted _ _ (takeN_ne_exhausted _ _) (fun p => by simp)
  · simp

theorem floatF_cons (bs : ByteL) (n : Nat) (r : ByteL)
    (h : floatTryFromInner bs = .res (.ok (n, r))) : r.length < bs.length := by
  rw [floatTryFromInner] at h
  obtain ⟨⟨m, r1⟩, hg, h2⟩ := pbind_ok_inv _ _ _ h
  have h1 := getU8_cons _ _ _ hg
  simp only [] at h2
  split_ifs at h2
  · obtain ⟨⟨w, r2⟩, hgz, h3⟩ := pbind_ok_inv _ _ _ h2
    simp only [] at h3
    have h4 := takeN_cons _ _ _ _ hgz
    cases h3
    omega
  · simp at h2

theorem floatF_ne_exhausted (bs : ByteL) : floatTryFromInner bs ≠ .exhausted := by
  rw [floatTryFromInner]
  apply pbind_ne_exhausted _ _ (getU8_ne_exhausted bs)
  intro ⟨m, r⟩
  simp only []
  split_ifs
  · exact pbind_ne_exhausted _ _ (takeN_ne_exhausted _ _) (fun p => by simp)
  · simp

theorem getSignature_cons (bs : ByteL) (sig : Nat) (r : ByteL)
    (h : getSignatureFromBytes bs = .res (.ok (sig, r))) : r.length < bs.length := by
  rw [getSignatureFromBytes] at h
  obtain ⟨⟨m, r1⟩, hg, h2⟩ := pbind_ok_inv _ _ _ h
  have h1 := getU8_cons _ _ _ hg
  simp only [] at h2
  split_ifs at h2
  · have h4 := getU8_cons _ _ _ h2
    omega
  · obtain ⟨⟨sz, r2⟩, hgz, h3⟩ := pbind_ok_inv _ _ _ h2
    simp only [] at h3
    have h4 := getU8_cons _ _ _ hgz
    have h5 := getU8_cons _ _ _ h3
    omega
  · obtain ⟨⟨sz, r2⟩, hgz, h3⟩ := pbind_ok_inv _ _ _ h2
    simp only [] at h3
    have h4 := getU16_cons _ _ _ hgz
    have h5 := getU8_cons _ _ _ h3
    omega
  · simp at h2

theorem getSignature_ne_exhausted (bs : ByteL) :
    getSignatureFromBytes bs ≠ .exhausted := by
  rw [getSignatureFromBytes]
  apply pbind_ne_exhausted _ _ (getU8_ne_exhausted bs)
  intro ⟨m, r⟩
  simp only []
  split_ifs
  · exact getU8_ne_exhausted _
  · exact pbind_ne_exhausted _ _ (getU8_ne_exhausted _)
      (fun p => getU8_ne_exhausted _)
  · exact pbind_ne_exhausted _ _ (getU16_ne_exhausted _)
      (fun p => getU8_ne_exhausted _)
  · simp


section BodyFacts

variable {decodeV : ByteL → PRes Value}

/-- Consumption of the map entry loop (non-strict). -/
theorem mapLoop_cons
    (hC : ∀ bs v r, decodeV bs = .res (.ok (v, r)) → r.length < bs.length) :
    ∀ (k : Nat) (acc m : List (BStr × Value)) (bs r : ByteL),
      mapLoop decodeV k acc bs = .res (.ok (m, r)) → r.length ≤ bs.length := by
  intro k
  induction k with
  | zero =>
    intro acc m bs r h
    rw [mapLoop] at h
    cases h
    exact le_rfl
  | succ k ih =>
    intro acc m bs r h
    rw [mapLoop] at h
    obtain ⟨⟨key, r1⟩, h1, h⟩ := pbind_ok_inv _ _ _ h
    simp only [] at h
    obtain ⟨⟨v, r2⟩, h2, h⟩ := pbind_ok_inv _ _ _ h
    simp only [] at h
    have c1 := stringF_cons _ _ _ h1
    have c2 := hC _ _ _ h2
    have c3 := ih _ _ _ _ h
    omega

/-- Strict consumption of the map decoder body. -/
theorem mapBody_cons
    (hC : ∀ bs v r, decodeV bs = .res (.ok (v, r)) → r.length < bs.length) :
    ∀ (bs : ByteL) (m : List (BStr × Value)) (r : ByteL),
      mapDeserializeBody decodeV bs = .res (.ok (m, r)) → r.length < bs.length := by
  intro bs m r h
  rw [mapDeserializeBody] at h
  obtain ⟨⟨marker, r1⟩, h1, h⟩ := pbind_ok_inv _ _ _ h
  simp only [] at h
  have c1 := getU8_cons _ _ _ h1
  split_ifs at h
  · have := mapLoop_cons hC _ _ _ _ _ h
    omega
  · obtain ⟨⟨sz, r2⟩, h2, h⟩ := pbind_ok_inv _ _ _ h
    simp only [] at h
    have c2 := getU8_cons _ _ _ h2
    have := mapLoop_cons hC _ _ _ _ _ h
    omega
  · obtain ⟨⟨sz, r2⟩, h2, h⟩ := pbind_ok_inv _ _ _ h
    simp only [] at h
    have c2 := getU16_cons _ _ _ h2
    have := mapLoop_cons hC _ _ _ _ _ h
    omega
  · obtain ⟨⟨sz, r2⟩, h2, h⟩ := pbind_ok_inv _ _ _ h
    simp only [] at h
    have c2 := getU32_cons _ _ _ h2
    have := mapLoop_cons hC _ _ _ _ _ h
    omega
  · simp at h

/-- Consumption of the list element loop (non-strict). -/
theorem listLoop_cons
    (hC : ∀ bs v r, decodeV bs = .res (.ok (v, r)) → r.length < bs.length) :
    ∀ (k : Nat) (acc l : List Value) (bs r : ByteL),
      listLoop decodeV k acc bs = .res (.ok (l, r)) → r.length ≤ bs.length := by
  intro k
  induction k with
  | zero =>
    intro acc l bs r h
    rw [listLoop] at h
    cases h
    exact le_rfl
  | succ k ih =>
    intro acc l bs r h
    rw [listLoop] at h
    obtain ⟨⟨v, r1⟩, h1, h⟩ := pbind_ok_inv _ _ _ h
    simp only [] at h
    have c1 := hC _ _ _ h1
    have c2 := ih _ _ _ _ h
    omega

/-- Strict consumption of the list decoder body. -/
theorem listBody_cons
    (hC : ∀ bs v r, decodeV bs = .res (.ok (v, r)) → r.length < bs.length) :
    ∀ (bs : ByteL) (l : List Value) (r : ByteL),
      listDeserializeBody decodeV bs = .res (.ok (l, r)) → r.length < bs.length := by
  intro bs l r h
  rw [listDeserializeBody] at h
  obtain ⟨⟨marker, r1⟩, h1, h⟩ := pbind_ok_inv _ _ _ h
  simp only [] at h
  have c1 := getU8_cons _ _ _ h1
  split_ifs at h
  · have := listLoop_cons hC _ _ _ _ _ h
    omega
  · obtain ⟨⟨sz, r2⟩, h2, h⟩ := pbind_ok_inv _ _ _ h
    simp only [] at h
    have c2 := getU8_cons _ _ _ h2
    have := listLoop_cons hC _ _ _ _ _ h
    omega
  · obtain ⟨⟨sz, r2⟩, h2, h⟩ := pbind_ok_inv _ _ _ h
    simp only [] at h
    have c2 := getU16_cons _ _ _ h2
    have := listLoop_cons hC _ _ _ _ _ h
    omega
  · obtain ⟨⟨sz, r2⟩, h2, h⟩ := pbind_ok_inv _ _ _ h
    simp only [] at h
    have c2 := getU32_cons _ _ _ h2
    have := listLoop_cons hC _ _ _ _ _ h
    omega
  · simp at h

/-- Strict consumption of the Node field decoder. -/
theorem nodeBody_cons
    (hC : ∀ bs v r, decodeV bs = .res (.ok (v, r)) → r.length < bs.length) :
    ∀ (bs : ByteL) (v : Value) (r : ByteL),
      nodeDeserializeBody decodeV bs = .res (.ok (v, r)) → r.length < bs.length := by
  intro bs v r h
  rw [nodeDeserializeBody] at h
  obtain ⟨⟨v1, r1⟩, h1, h⟩ := pbind_ok_inv _ _ _ h
  simp only [] at h
  obtain ⟨⟨v2, r2⟩, h2, h⟩ := pbind_ok_inv _ _ _ h
  simp only [] at h
  obtain ⟨⟨v3, r3⟩, h3, h⟩ := pbind_ok_inv _ _ _ h
  simp only [] at h
  have c1 := hC _ _ _ h1
  have c2 := hC _ _ _ h2
  have c3 := hC _ _ _ h3
  split at h
  · split at h
    · cases h
      omega
    · simp at h
  · simp at h

/-- Strict consumption of the Relationship field decoder. -/
theorem relBody_cons
    (hC : ∀ bs v r, decodeV bs = .res (.ok (v, r)) → r.length < bs.length) :
    ∀ (bs : ByteL) (v : Value) (r : ByteL),
      relationshipDeserializeBody decodeV bs = .res (.ok (v, r)) →
        r.length < bs.length := by
  intro bs v r h
  rw [relationshipDeserializeBody] at h
  obtain ⟨⟨v1, r1⟩, h1, h⟩ := pbind_ok_inv _ _ _ h
  simp only [] at h
  obtain ⟨⟨v2, r2⟩, h2, h⟩ := pbind_ok_inv _ _ _ h
  simp only [] at h
  obtain ⟨⟨v3, r3⟩, h3, h⟩ := pbind_ok_inv _ _ _ h
  simp only [] at h
  obtain ⟨⟨v4, r4⟩, h4, h⟩ := pbind_ok_inv _ _ _ h
  simp only [] at h
  obtain ⟨⟨v5, r5⟩, h5, h⟩ := pbind_ok_inv _ _ _ h
  simp only [] at h
  have c1 := hC _ _ _ h1
  have c2 := hC _ _ _ h2
  have c3 := hC _ _ _ h3
  have c4 := hC _ _ _ h4
  have c5 := hC _ _ _ h5
  split at h
  · cases h
    omega
  · simp at h

/-- Strict consumption of the Path field decoder. -/
theorem pathBody_cons
    (hC : ∀ bs v r, decodeV bs = .res (.ok (v, r)) → r.length < bs.length) :
    ∀ (bs : ByteL) (v : Value) (r : ByteL),
      pathDeserializeBody decodeV bs = .res (.ok (v, r)) → r.length < bs.length := by
  intro bs v r h
  rw [pathDeserializeBody] at h
  obtain ⟨⟨v1, r1⟩, h1, h⟩ := pbind_ok_inv _ _ _ h
  simp only [] at h
  obtain ⟨⟨v2, r2⟩, h2, h⟩ := pbind_ok_inv _ _ _ h
  simp only [] at h
  obtain ⟨⟨v3, r3⟩, h3, h⟩ := pbind_ok_inv _ _ _ h
  simp only [] at h
  have c1 := hC _ _ _ h1
  have c2 := hC _ _ _ h2
  have c3 := hC _ _ _ h3
  split at h
  · split_ifs at h
    · split at h
      · cases h
        omega
      · simp at h
    · simp at h
  · simp at h

/-- Strict consumption of the UnboundRelationship field decoder. -/
theorem unboundBody_cons
    (hC : ∀ bs v r, decodeV bs = .res (.ok (v, r)) → r.length < bs.length) :
    ∀ (bs : ByteL) (v : Value) (r : ByteL),
      unboundDeserializeBody decodeV bs = .res (.ok (v, r)) →
        r.length < bs.length := by
  intro bs v r h
  rw [unboundDeserializeBody] at h
  obtain ⟨⟨v1, r1⟩, h1, h⟩ := pbind_ok_inv _ _ _ h
  simp only [] at h
  obtain ⟨⟨v2, r2⟩, h2, h⟩ := pbind_ok_inv _ _ _ h
  simp only [] at h
  obtain ⟨⟨v3, r3⟩, h3, h⟩ := pbind_ok_inv _ _ _ h
  simp only [] at h
  have c1 := hC _ _ _ h1
  have c2 := hC _ _ _ h2
  have c3 := hC _ _ _ h3
  split at h
  · cases h
    omega
  · simp at h

/-- Strict consumption of the structure dispatcher. -/
theorem structBody_cons
    (hC : ∀ bs v r, decodeV bs = .res (.ok (v, r)) → r.length < bs.length) :
    ∀ (bs : ByteL) (v : Value) (r : ByteL),
      deserializeStructure decodeV bs = .res (.ok (v, r)) → r.length < bs.length := by
  intro bs v r h
  rw [deserializeStructure] at h
  obtain ⟨⟨sig, r1⟩, h1, h⟩ := pbind_ok_inv _ _ _ h
  simp only [] at h
  have c1 := getSignature_cons _ _ _ h1
  split_ifs at h
  · have := nodeBody_cons hC _ _ _ h
    omega
  · have := relBody_cons hC _ _ _ h
    omega
  · have := pathBody_cons hC _ _ _ h
    omega
  · have := unboundBody_cons hC _ _ _ h
    omega
  · simp at h

end BodyFacts


section NoExhaustion

variable {decodeV : ByteL → PRes Value} {n : Nat}

/-- A bind is exhaustion-free when its head is and its continuation is on
every successful head value. -/
theorem pbind_ne_exh_cond {α β : Type} (x : PRes α) (f : α × ByteL → PRes β)
    (hx : x ≠ .exhausted) (hf : ∀ p, x = .res (.ok p) → f p ≠ .exhausted) :
    pbind x f ≠ .exhausted := by
  cases x with
  | panic => rw [pbind_panic]; simp
  | exhausted => exact absurd rfl hx
  | res rr =>
    cases rr with
    | error e => rw [pbind_err]; simp
    | ok p =>
      rw [pbind_ok]
      exact hf p rfl

/-- The map entry loop never exhausts when the child decoder consumes
strictly and never exhausts below the bound. -/
theorem mapLoop_noExh
    (hC : ∀ bs v r, decodeV bs = .res (.ok (v, r)) → r.length < bs.length)
    (hN : ∀ bs1 : ByteL, bs1.length < n → decodeV bs1 ≠ .exhausted) :
    ∀ (k : Nat) (acc : List (BStr × Value)) (bs : ByteL), bs.length < n →
      mapLoop decodeV k acc bs ≠ .exhausted := by
  intro k
  induction k with
  | zero =>
    intro acc bs hb
    rw [mapLoop]
    simp
  | succ k ih =>
    intro acc bs hb
    rw [mapLoop]
    apply pbind_ne_exh_cond _ _ (stringF_ne_exhausted bs)
    intro p hp
    obtain ⟨key, r1⟩ := p
    have c1 := stringF_cons _ _ _ hp
    simp only []
    apply pbind_ne_exh_cond _ _ (hN r1 (by omega))
    intro p2 hp2
    obtain ⟨v, r2⟩ := p2
    have c2 := hC _ _ _ hp2
    simp only []
    exact ih _ _ (by omega)

/-- The map decoder body never exhausts below the bound. -/
theorem mapBody_noExh
    (hC : ∀ bs v r, decodeV bs = .res (.ok (v, r)) → r.length < bs.length)
    (hN : ∀ bs1 : ByteL, bs1.length < n → decodeV bs1 ≠ .exhausted) :
    ∀ bs : ByteL, bs.length ≤ n → mapDeserializeBody decodeV bs ≠ .exhausted := by
  intro bs hb
  rw [mapDeserializeBody]
  apply pbind_ne_exh_cond _ _ (getU8_ne_exhausted bs)
  intro p hp
  obtain ⟨marker, r1⟩ := p
  have c1 := getU8_cons _ _ _ hp
  simp only []
  split_ifs
  · exact mapLoop_noExh hC hN _ _ _ (by omega)
  · apply pbind_ne_exh_cond _ _ (getU8_ne_exhausted r1)
    intro p2 hp2
    obtain ⟨sz, r2⟩ := p2
    have c2 := getU8_cons _ _ _ hp2
    simp only []
    exact mapLoop_noExh hC hN _ _ _ (by omega)
  · apply pbind_ne_exh_cond _ _ (getU16_ne_exhausted r1)
    intro p2 hp2
    obtain ⟨sz, r2⟩ := p2
    have c2 := getU16_cons _ _ _ hp2
    simp only []
    exact mapLoop_noExh hC hN _ _ _ (by omega)
  · apply pbind_ne_exh_cond _ _ (getU32_ne_exhausted r1)
    intro p2 hp2
    obtain ⟨sz, r2⟩ := p2
    have c2 := getU32_cons _ _ _ hp2
    simp only []
    exact mapLoop_noExh hC hN _ _ _ (by omega)
  · simp

/-- The list element loop never exhausts when the child decoder consumes
strictly and never exhausts below the bound. -/
theorem listLoop_noExh
    (hC : ∀ bs v r, decodeV bs = .res (.ok (v, r)) → r.length < bs.length)
    (hN : ∀ bs1 : ByteL, bs1.length < n → decodeV bs1 ≠ .exhausted) :
    ∀ (k : Nat) (acc : List Value) (bs : ByteL), bs.length < n →
      listLoop decodeV k acc bs ≠ .exhausted := by
  intro k
  induction k with
  | zero =>
    intro acc bs hb
    rw [listLoop]
    simp
  | succ k ih =>
    intro acc bs hb
    rw [listLoop]
    apply pbind_ne_exh_cond _ _ (hN bs hb)
    intro p hp
    obtain ⟨v, r1⟩ := p
    have c1 := hC _ _ _ hp
    simp only []
    exact ih _ _ (by omega)

/-- The list decoder body never exhausts below the bound. -/
theorem listBody_noExh
    (hC : ∀ bs v r, decodeV bs = .res (.ok (v, r)) → r.length < bs.length)
    (hN : ∀ bs1 : ByteL, bs1.length < n → decodeV bs1 ≠ .exhausted) :
    ∀ bs : ByteL, bs.length ≤ n → listDeserializeBody decodeV bs ≠ .exhausted := by
  intro bs hb
  rw [listDeserializeBody]
  apply pbind_ne_exh_cond _ _ (getU8_ne_exhausted bs)
  intro p hp
  obtain ⟨marker, r1⟩ := p
  have c1 := getU8_cons _ _ _ hp
  simp only []
  split_ifs
  · exact listLoop_noExh hC hN _ _ _ (by omega)
  · apply pbind_ne_exh_cond _ _ (getU8_ne_exhausted r1)
    intro p2 hp2
    obtain ⟨sz, r2⟩ := p2
    have c2 := getU8_cons _ _ _ hp2
    simp only []
    exact listLoop_noExh hC hN _ _ _ (by omega)
  · apply pbind_ne_exh_cond _ _ (getU16_ne_exhausted r1)
    intro p2 hp2
    obtain ⟨sz, r2⟩ := p2
    have c2 := getU16_cons _ _ _ hp2
    simp only []
    exact listLoop_noExh hC hN _ _ _ (by omega)
  · apply pbind_ne_exh_cond _ _ (getU32_ne_exhausted r1)
    intro p2 hp2
    obtain ⟨sz, r2⟩ := p2
    have c2 := getU32_cons _ _ _ hp2
    simp only []
    exact listLoop_noExh hC hN _ _ _ (by omega)
  · simp

/-- The Node field decoder never exhausts on strictly bounded input. -/
theorem nodeBody_noExh
    (hC : ∀ bs v r, decodeV bs = .res (.ok (v, r)) → r.length < bs.length)
    (hN : ∀ bs1 : ByteL, bs1.length < n → decodeV bs1 ≠ .exhausted) :
    ∀ bs : ByteL, bs.length < n → nodeDeserializeBody decodeV bs ≠ .exhausted := by
  intro bs hb
  rw [nodeDeserializeBody]
  apply pbind_ne_exh_cond _ _ (hN bs hb)
  intro p1 h1
  obtain ⟨v1, r1⟩ := p1
  have c1 := hC _ _ _ h1
  simp only []
  apply pbind_ne_exh_cond _ _ (hN r1 (by omega))
  intro p2 h2
  obtain ⟨v2, r2⟩ := p2
  have c2 := hC _ _ _ h2
  simp only []
  apply pbind_ne_exh_cond _ _ (hN r2 (by omega))
  intro p3 h3
  obtain ⟨v3, r3⟩ := p3
  simp only []
  split
  · split <;> simp
  · simp

/-- The Relationship field decoder never exhausts on strictly bounded
input. -/
theorem relBody_noExh
    (hC : ∀ bs v r, decodeV bs = .res (.ok (v, r)) → r.length < bs.length)
    (hN : ∀ bs1 : ByteL, bs1.length < n → decodeV bs1 ≠ .exhausted) :
    ∀ bs : ByteL, bs.length < n →
      relationshipDeserializeBody decodeV bs ≠ .exhausted := by
  intro bs hb
  rw [relationshipDeserializeBody]
  apply pbind_ne_exh_cond _ _ (hN bs hb)
  intro p1 h1
  obtain ⟨v1, r1⟩ := p1
  have c1 := hC _ _ _ h1
  simp only []
  apply pbind_ne_exh_cond _ _ (hN r1 (by omega))
  intro p2 h2
  obtain ⟨v2, r2⟩ := p2
  have c2 := hC _ _ _ h2
  simp only []
  apply pbind_ne_exh_cond _ _ (hN r2 (by omega))
  intro p3 h3
  obtain ⟨v3, r3⟩ := p3
  have c3 := hC _ _ _ h3
  simp only []
  apply pbind_ne_exh_cond _ _ (hN r3 (by omega))
  intro p4 h4
  obtain ⟨v4, r4⟩ := p4
  have c4 := hC _ _ _ h4
  simp only []
  apply pbind_ne_exh_cond _ _ (hN r4 (by omega))
  intro p5 h5
  obtain ⟨v5, r5⟩ := p5
  simp only []
  split <;> simp

/-- The Path field decoder never exhausts on strictly bounded input. -/
theorem pathBody_noExh
    (hC : ∀ bs v r, decodeV bs = .res (.ok (v, r)) → r.length < bs.length)
    (hN : ∀ bs1 : ByteL, bs1.length < n → decodeV bs1 ≠ .exhausted) :
    ∀ bs : ByteL, bs.length < n → pathDeserializeBody decodeV bs ≠ .exhausted := by
  intro bs hb
  rw [pathDeserializeBody]
  apply pbind_ne_exh_cond _ _ (hN bs hb)
  intro p1 h1
  obtain ⟨v1, r1⟩ := p1
  have c1 := hC _ _ _ h1
  simp only []
  apply pbind_ne_exh_cond _ _ (hN r1 (by omega))
  intro p2 h2
  obtain ⟨v2, r2⟩ := p2
  have c2 := hC _ _ _ h2
  simp only []
  apply pbind_ne_exh_cond _ _ (hN r2 (by omega))
  intro p3 h3
  obtain ⟨v3, r3⟩ := p3
  simp only []
  split
  · split_ifs
    · split <;> simp
    · simp
  · simp

/-- The UnboundRelationship field decoder never exhausts on strictly
bounded input. -/
theorem unboundBody_noExh
    (hC : ∀ bs v r, decodeV bs = .res (.ok (v, r)) → r.length < bs.length)
    (hN : ∀ bs1 : ByteL, bs1.length < n → decodeV bs1 ≠ .exhausted) :
    ∀ bs : ByteL, bs.length < n →
      unboundDeserializeBody decodeV bs ≠ .exhausted := by
  intro bs hb
  rw [unboundDeserializeBody]
  apply pbind_ne_exh_cond _ _ (hN bs hb)
  intro p1 h1
  obtain ⟨v1, r1⟩ := p1
  have c1 := hC _ _ _ h1
  simp only []
  apply pbind_ne_exh_cond _ _ (hN r1 (by omega))
  intro p2 h2
  obtain ⟨v2, r2⟩ := p2
  have c2 := hC _ _ _ h2
  simp only []
  apply pbind_ne_exh_cond _ _ (hN r2 (by omega))
  intro p3 h3
  obtain ⟨v3, r3⟩ := p3
  simp only []
  split <;> simp

/-- The structure dispatcher never exhausts below the bound. -/
theorem structBody_noExh
    (hC : ∀ bs v r, decodeV bs = .res (.ok (v, r)) → r.length < bs.length)
    (hN : ∀ bs1 : ByteL, bs1.length < n → decodeV bs1 ≠ .exhausted) :
    ∀ bs : ByteL, bs.length ≤ n → deserializeStructure decodeV bs ≠ .exhausted := by
  intro bs hb
  rw [deserializeStructure]
  apply pbind_ne_exh_cond _ _ (getSignature_ne_exhausted bs)
  intro p hp
  obtain ⟨sig, r1⟩ := p
  have c1 := getSignature_cons _ _ _ hp
  simp only []
  split_ifs
  · exact nodeBody_noExh hC hN _ (by omega)
  · exact relBody_noExh hC hN _ (by omega)
  · exact pathBody_noExh hC hN _ (by omega)
  · exact unboundBody_noExh hC hN _ (by omega)
  · simp

end NoExhaustion

set_option maxHeartbeats 1600000 in
/-- Case analysis on the marker dispatch of the fuelled `Value` decoder:
any property holding on every arm holds of the decoder's result. -/
theorem valueF_succ_elim (f : Nat) (b : Nat) (rest : ByteL)
    (C : PRes Value → Prop)
    (hNull : C (.res (.ok (.null, rest))))
    (hFalse : C (.res (.ok (.boolean false, rest))))
    (hTrue : C (.res (.ok (.boolean true, rest))))
    (hTiny : C (.res (.ok (.integer (asI8 b), rest))))
    (hInt : C (pbind (integerTryFromInner (b :: rest))
      fun (i, r) => .res (.ok (.integer i, r))))
    (hFloat : C (pbind (floatTryFromInner (b :: rest))
      fun (x, r) => .res (.ok (.float x, r))))
    (hStr : C (pbind (stringTryFromInner (b :: rest))
      fun (s, r) => .res (.ok (.string s, r))))
    (hList : C (pbind (listDeserializeBody (valueTryFromInner f) (b :: rest))
      fun (l, r) => .res (.ok (.list l, r))))
    (hMap : C (pbind (mapDeserializeBody (valueTryFromInner f) (b :: rest))
      fun (m, r) => .res (.ok (.map m, r))))
    (hStruct : C (deserializeStructure (valueTryFromInner f) (b :: rest)))
    (hErr : ∀ e, C (.res (.error e))) :
    C (valueTryFromInner (f + 1) (b :: rest)) := by
  rw [valueTryFromInner]
  simp only []
  by_cases c1 : b = nullMARKER
  · rw [if_pos c1]; exact hNull
  rw [if_neg c1]
  by_cases c2 : b = booleanMARKER_FALSE
  · rw [if_pos c2]; exact hFalse
  rw [if_neg c2]
  by_cases c3 : b = booleanMARKER_TRUE
  · rw [if_pos c3]; exact hTrue
  rw [if_neg c3]
  by_cases c4 : -16 ≤ asI8 b ∧ asI8 b ≤ 127
  · rw [if_pos c4]; exact hTiny
  rw [if_neg c4]
  by_cases c5 : b = 0xC8 ∨ b = 0xC9 ∨ b = 0xCA ∨ b = 0xCB
  · rw [if_pos c5]; exact hInt
  rw [if_neg c5]
  by_cases c6 : b = 0xC1
  · rw [if_pos c6]; exact hFloat
  rw [if_neg c6]
  by_cases c7 : 0x80 ≤ b ∧ b ≤ 0x80 ||| 0x0F
  · rw [if_pos c7]; exact hStr
  rw [if_neg c7]
  by_cases c8 : b = 0xD0 ∨ b = 0xD1 ∨ b = 0xD2
  · rw [if_pos c8]; exact hStr
  rw [if_neg c8]
  by_cases c9 : listMARKER_TINY ≤ b ∧ b ≤ listMARKER_TINY ||| 0x0F
  · rw [if_pos c9]; exact hList
  rw [if_neg c9]
  by_cases c10 : b = 0xD4 ∨ b = 0xD5 ∨ b = 0xD6
  · rw [if_pos c10]; exact hList
  rw [if_neg c10]
  by_cases c11 : mapMARKER_TINY ≤ b ∧ b ≤ mapMARKER_TINY ||| 0x0F
  · rw [if_pos c11]; exact hMap
  rw [if_neg c11]
  by_cases c12 : b = mapMARKER_SMALL ∨ b = mapMARKER_MEDIUM ∨ b = mapMARKER_LARGE
  · rw [if_pos c12]; exact hMap
  rw [if_neg c12]
  by_cases c13 : structureMARKER_TINY ≤ b ∧ b ≤ listMARKER_TINY ||| 0x0F
  · rw [if_pos c13]; exact hStruct
  rw [if_neg c13]
  by_cases c14 : b = structureMARKER_SMALL ∨ b = structureMARKER_MEDIUM
  · rw [if_pos c14]; exact hStruct
  rw [if_neg c14]
  exact hErr _

/-- Strict consumption of the fuelled `Value` decoder: a successful
decode always consumes at least the marker byte. -/
theorem valueF_cons :
    ∀ (f : Nat) (bs : ByteL) (v : Value) (r : ByteL),
      valueTryFromInner f bs = .res (.ok (v, r)) → r.length < bs.length := by
  intro f
  induction f with
  | zero =>
    intro bs v r h
    rw [valueTryFromInner] at h
    simp at h
  | succ f ih =>
    intro bs v r
    cases bs with
    | nil =>
      intro h
      rw [valueTryFromInner] at h
      simp at h
    | cons b rest =>
      refine valueF_succ_elim f b rest
        (fun z => z = .res (.ok (v, r)) → r.length < (b :: rest).length)
        ?_ ?_ ?_ ?_ ?_ ?_ ?_ ?_ ?_ ?_ ?_
      · intro h
        cases h
        simp
      · intro h
        cases h
        simp
      · intro h
        cases h
        simp
      · intro h
        cases h
        simp
      · intro h
        obtain ⟨⟨i, r1⟩, hi, h2⟩ := pbind_ok_inv _ _ _ h
        simp only [] at h2
        cases h2
        exact integerF_cons _ _ _ hi
      · intro h
        obtain ⟨⟨x, r1⟩, hx, h2⟩ := pbind_ok_inv _ _ _ h
        simp only [] at h2
        cases h2
        exact floatF_cons _ _ _ hx
      · intro h
        obtain ⟨⟨s, r1⟩, hs, h2⟩ := pbind_ok_inv _ _ _ h
        simp only [] at h2
        cases h2
        exact stringF_cons _ _ _ hs
      · intro h
        obtain ⟨⟨l, r1⟩, hl, h2⟩ := pbind_ok_inv _ _ _ h
        simp only [] at h2
        cases h2
        exact listBody_cons ih _ _ _ hl
      · intro h
        obtain ⟨⟨m, r1⟩, hm, h2⟩ := pbind_ok_inv _ _ _ h
        simp only [] at h2
        cases h2
        exact mapBody_cons ih _ _ _ hm
      · intro h
        exact structBody_cons ih _ _ _ h
      · intro e h
        simp at h

/-- The fuelled `Value` decoder never runs out of fuel when given one more
unit of fuel than bytes of input. -/
theorem valueF_noExh :
    ∀ (f : Nat) (bs : ByteL), bs.length < f →
      valueTryFromInner f bs ≠ .exhausted := by
  intro f
  induction f with
  | zero =>
    intro bs hb
    exact absurd hb (by omega)
  | succ f ih =>
    intro bs hb
    cases bs with
    | nil =>
      rw [valueTryFromInner]
      simp
    | cons b rest =>
      have hle : (b :: rest).length ≤ f := by
        simpa using Nat.lt_succ_iff.mp hb
      refine valueF_succ_elim f b rest (fun z => z ≠ PRes.exhausted)
        ?_ ?_ ?_ ?_ ?_ ?_ ?_ ?_ ?_ ?_ ?_
      · simp
      · simp
      · simp
      · simp
      · apply pbind_ne_exh_cond _ _ (integerF_ne_exhausted _)
        intro p _
        obtain ⟨i, r⟩ := p
        simp
      · apply pbind_ne_exh_cond _ _ (floatF_ne_exhausted _)
        intro p _
        obtain ⟨x, r⟩ := p
        simp
      · apply pbind_ne_exh_cond _ _ (stringF_ne_exhausted _)
        intro p _
        obtain ⟨s, r⟩ := p
        simp
      · apply pbind_ne_exh_cond _ _ (listBody_noExh (valueF_cons f) ih _ hle)
        intro p _
        obtain ⟨l, r⟩ := p
        simp
      · apply pbind_ne_exh_cond _ _ (mapBody_noExh (valueF_cons f) ih _ hle)
        intro p _
        obtain ⟨m, r⟩ := p
        simp
      · exact structBody_noExh (valueF_cons f) ih _ hle
      · intro e
        simp

/-! ## Claims C2, C4, C5, C8, C9 -/

/-- Claim C2 (code bug): the spec's marker table lists `0xB0..=0xBF` as
tiny structure markers, and a tiny structure with a known signature and
well-formed fields must dispatch to structure decoding.  The source's
dispatch range `structure::MARKER_TINY..=(list::MARKER_TINY | 0x0F)` is
the empty range `0xB0..=0x9F`, so the well-formed tiny Node structure
`[0xB3, 0x4E, 0x01, 0x90, 0xA0]` is rejected with `InvalidMarkerByte`
even though the identical signature and fields decode fine under the
non-tiny structure marker `0xDC`. -/
theorem claim_C2_tiny_structure_invalid_marker :
    valueTryFromBytes [0xB3, 0x4E, 0x01, 0x90, 0xA0] =
      .error (.invalidMarkerByte 0xB3) ∧
    valueTryFromBytes [0xDC, 0x03, 0x4E, 0x01, 0x90, 0xA0] =
      .ok (.node 1 [] [], []) :=
  ⟨rfl, rfl⟩

/-- Claim C4 (counterexample): on the truncated input `[0xD8]` (a map
marker whose `u8` size byte is missing) the `Map` decoder fails with
the `Panicked` error kind — the `catch_unwind` translation of the
cursor under-read — not with a kind named `Truncated`, which the
source's error construction sites do not produce; likewise the `Value`
decoder on empty input. -/
theorem claim_C4_truncated_counterexample :
    mapTryFromBytes [0xD8] = .error .panicked ∧
    valueTryFromBytes [] = .error .panicked :=
  ⟨rfl, rfl⟩

/-- Claim C4 (amended): every out-of-bounds cursor read inside the
decoders — a `panic` outcome of the inner decoder — is returned to the
caller as the dedicated `Panicked` error kind, never as another kind
and never as an abnormal termination. -/
theorem claim_C4_truncated_becomes_panicked :
    ∀ bs : ByteL,
      (mapTryFromInner bs.length bs = .panic →
        mapTryFromBytes bs = .error .panicked) ∧
      (valueTryFromInner (bs.length + 1) bs = .panic →
        valueTryFromBytes bs = .error .panicked) := by
  intro bs
  constructor
  · intro h
    simp [mapTryFromBytes, h, catchUnwindP]
  · intro h
    simp [valueTryFromBytes, h, catchUnwindP]

/-- Witness for the amended C4 theorem: a map whose `u16` size bytes
are missing, and a value whose `Int16` payload is short, both panic
inside and surface as `Panicked`. -/
theorem claim_C4_truncated_witness :
    mapTryFromBytes [0xD9] = .error .panicked ∧
    valueTryFromBytes [0xC9, 0x01] = .error .panicked :=
  ⟨(claim_C4_truncated_becomes_panicked [0xD9]).1 rfl,
   (claim_C4_truncated_becomes_panicked [0xC9, 0x01]).2 rfl⟩

/-- Claim C5 (counterexample): `get_signature_from_bytes` reads the
declared field count into `_size` and discards it; a tiny structure
marker declaring 0 fields followed by the Node signature (arity 3) is
accepted, and a `0xDC` structure declaring 1 field with the Node
signature still decodes to a full 3-field Node — no arity check
happens anywhere on the decode path. -/
theorem claim_C5_arity_counterexample :
    getSignatureFromBytes [0xB0, 0x4E] = .res (.ok (0x4E, [])) ∧
    valueTryFromBytes [0xDC, 0x01, 0x4E, 0x01, 0x90, 0xA0] =
      .ok (.node 1 [] [], []) :=
  ⟨rfl, rfl⟩

/-- Claim C5 (amended): the declared field count is read but discarded;
`get_signature_from_bytes` returns the signature for any declared tiny
field count whatsoever, without comparing it to the signature's
expected arity. -/
theorem claim_C5_size_discarded :
    ∀ (n sig : Nat) (rest : ByteL), n ≤ 15 →
      getSignatureFromBytes ((structureMARKER_TINY + n) :: sig :: rest) =
        .res (.ok (sig, rest)) := by
  intro n sig rest hn
  have hcond : structureMARKER_TINY ≤ structureMARKER_TINY + n ∧
      structureMARKER_TINY + n ≤ structureMARKER_TINY ||| 0x0F := by
    rw [structTinyUpper]
    simp [structureMARKER_TINY]
    omega
  simp [getSignatureFromBytes, getU8, pbind, hcond]

/-- Witness for the amended C5 theorem at declared count 2 with an
arbitrary signature byte. -/
theorem claim_C5_size_discarded_witness :
    getSignatureFromBytes [0xB2, 0x99, 0x01] = .res (.ok (0x99, [0x01])) :=
  claim_C5_size_discarded 2 0x99 [0x01] (by norm_num)

/-- Claim C8 (confirmed): `Stream::connect` with no server name yields
the plain `Tcp` variant; with a server name it validates the DNS name
first and fails with `InvalidDNSName` (the spec's `InvalidServerName`)
before any TCP connection is attempted; with a valid name it connects
TCP, performs the TLS handshake against the bundled trust roots, and
yields `SecureTcp`. -/
theorem claim_C8_stream_connect :
    ∀ (o : NetOracle) (d : String),
      (o.tcpOk = true → streamConnect o none = ([.tcpConnect], .ok .tcp)) ∧
      (o.dnsValid d = false →
        streamConnect o (some d) =
          ([.configureRoots, .dnsValidate d], .error (.invalidDNSName d)) ∧
        NetAction.tcpConnect ∉ (streamConnect o (some d)).1) ∧
      (o.dnsValid d = true → o.tcpOk = true → o.tlsOk = true →
        streamConnect o (some d) =
          ([.configureRoots, .dnsValidate d, .tcpConnect, .tlsHandshake],
            .ok .secureTcp)) := by
  intro o d
  refine ⟨fun h1 => ?_, fun h2 => ⟨?_, ?_⟩, fun h3 h4 h5 => ?_⟩
  · simp [streamConnect, h1]
  · simp [streamConnect, h2]
  · simp [streamConnect, h2]
  · simp [streamConnect, h3, h4, h5]

/-- Witness for C8 at concrete oracles: a successful TLS connect, an
invalid server name, and a plain TCP connect. -/
theorem claim_C8_stream_connect_witness :
    streamConnect ⟨fun _ => true, true, true⟩ (some "db.example.com") =
      ([.configureRoots, .dnsValidate "db.example.com", .tcpConnect, .tlsHandshake],
        .ok .secureTcp) ∧
    streamConnect ⟨fun _ => false, true, true⟩ (some "bad name") =
      ([.configureRoots, .dnsValidate "bad name"], .error (.invalidDNSName "bad name")) ∧
    streamConnect ⟨fun _ => true, true, true⟩ none = ([.tcpConnect], .ok .tcp) :=
  ⟨(claim_C8_stream_connect ⟨fun _ => true, true, true⟩ "db.example.com").2.2 rfl rfl rfl,
   ((claim_C8_stream_connect ⟨fun _ => false, true, true⟩ "bad name").2.1 rfl).1,
   (claim_C8_stream_connect ⟨fun _ => true, true, true⟩ "ignored").1 rfl⟩

/-- Claim C6 (confirmed): the `Map` encoder picks the smallest legal
width for the size marker — `0xA0 | len` with no size byte for counts
`0..=15`, `0xD8` with a `u8` size for `16..=255`, `0xD9` with a `u16`
big-endian size for `256..=65535`, and `0xDA` with a `u32` big-endian
size for `65536..=2^32-1` — followed in each case by the entry bytes. -/
theorem claim_C6_map_marker_widths :
    ∀ (m : List (BStr × Value)) (bs eb : ByteL),
      mapTryIntoBytes m = .ok bs →
      encodeEntries m = .ok eb →
      (m.length ≤ 15 → bs = (0xA0 + m.length) :: eb) ∧
      (16 ≤ m.length → m.length ≤ 255 → bs = 0xD8 :: m.length :: eb) ∧
      (256 ≤ m.length → m.length ≤ 65535 →
        bs = 0xD9 :: (beBytes 2 m.length ++ eb)) ∧
      (65536 ≤ m.length → m.length ≤ 4294967295 →
        bs = 0xDA :: (beBytes 4 m.length ++ eb)) := by
  intro m bs eb h he
  refine ⟨fun h1 => ?_, fun h0 h1 => ?_, fun h0 h1 => ?_, fun h0 h1 => ?_⟩
  · have hm : mapGetMarker m.length = .ok (0xA0 + m.length) := by
      simp only [mapGetMarker, if_pos h1, mapTinyMarkerEq m.length h1]
    have hs : sizeHeaderBytes m.length = .ok [] := by
      simp only [sizeHeaderBytes, if_pos h1]
    simp only [mapTryIntoBytes, encodeMap, mapAssemble, hm, hs, he] at h
    simp at h
    exact h.symm
  · have hn1 : ¬ m.length ≤ 15 := by omega
    have hm : mapGetMarker m.length = .ok mapMARKER_SMALL := by
      simp only [mapGetMarker, if_neg hn1, if_pos h1]
    have hs : sizeHeaderBytes m.length = .ok [m.length] := by
      simp only [sizeHeaderBytes, if_neg hn1, if_pos h1]
    simp only [mapTryIntoBytes, encodeMap, mapAssemble, hm, hs, he] at h
    simp [mapMARKER_SMALL] at h
    exact h.symm
  · have hn1 : ¬ m.length ≤ 15 := by omega
    have hn2 : ¬ m.length ≤ 255 := by omega
    have hm : mapGetMarker m.length = .ok mapMARKER_MEDIUM := by
      simp only [mapGetMarker, if_neg hn1, if_neg hn2, if_pos h1]
    have hs : sizeHeaderBytes m.length = .ok (beBytes 2 m.length) := by
      simp only [sizeHeaderBytes, if_neg hn1, if_neg hn2, if_pos h1]
    simp only [mapTryIntoBytes, encodeMap, mapAssemble, hm, hs, he] at h
    simp [mapMARKER_MEDIUM] at h
    exact h.symm
  · have hn1 : ¬ m.length ≤ 15 := by omega
    have hn2 : ¬ m.length ≤ 255 := by omega
    have hn3 : ¬ m.length ≤ 65535 := by omega
    have hm : mapGetMarker m.length = .ok mapMARKER_LARGE := by
      simp only [mapGetMarker, if_neg hn1, if_neg hn2, if_neg hn3, if_pos h1]
    have hs : sizeHeaderBytes m.length = .ok (beBytes 4 m.length) := by
      simp only [sizeHeaderBytes, if_neg hn1, if_neg hn2, if_neg hn3, if_pos h1]
    simp only [mapTryIntoBytes, encodeMap, mapAssemble, hm, hs, he] at h
    simp [mapMARKER_LARGE] at h
    exact h.symm

/-- Witness for C6 at the one-entry map, whose encoding carries the
tiny marker `0xA0 + 1` and no size byte. -/
theorem claim_C6_map_marker_widths_witness :
    ([0xA1, 0x81, 0x61, 0x01] : ByteL) = (0xA0 + 1) :: [0x81, 0x61, 0x01] :=
  (claim_C6_map_marker_widths [([0x61], .integer 1)] [0xA1, 0x81, 0x61, 0x01]
    [0x81, 0x61, 0x01] rfl rfl).1 (by norm_num)

/-- Strings longer than `2^32 - 1` bytes fail to encode with
`ValueTooLarge` at their length. -/
theorem encodeString_too_large (s : BStr) (h : 4294967295 < s.length) :
    encodeString s = .error (.valueTooLarge s.length) := by
  have h1 : ¬ s.length ≤ 15 := by omega
  have h2 : ¬ s.length ≤ 255 := by omega
  have h3 : ¬ s.length ≤ 65535 := by omega
  have h4 : ¬ s.length ≤ 4294967295 := by omega
  simp only [encodeString, if_neg h1, if_neg h2, if_neg h3, if_neg h4]

/-- A first entry whose key fails to encode makes the whole entry loop
fail with that error. -/
theorem encodeEntries_key_error (k : BStr) (v : Value) (tl : List (BStr × Value))
    (e : CErr) (h : encodeString k = .error e) :
    encodeEntries ((k, v) :: tl) = .error e := by
  simp only [encodeEntries, h]

/-- With an encodable entry count, an entry-loop error is the result of
the whole map assembly. -/
theorem mapAssemble_error (len : Nat) (e : CErr) (h : len ≤ 4294967295) :
    mapAssemble len (.error e) = .error e := by
  simp only [mapAssemble, mapGetMarker]
  split_ifs with h1 h2 h3 <;> rfl

/-- With an encodable entry count, an entry-loop error is the result of
`Map::try_into_bytes`. -/
theorem mapTryInto_entries_error (m : List (BStr × Value)) (e : CErr)
    (hlen : m.length ≤ 4294967295) (h : encodeEntries m = .error e) :
    mapTryIntoBytes m = .error e := by
  simp only [mapTryIntoBytes, encodeMap, h, mapAssemble_error m.length e hlen]

/-- Claim C7 (counterexample): a one-entry map whose key is a string of
`2^32` bytes fails to encode with `ValueTooLarge(2^32)` even though its
entry count (1) does not exceed `2^32 - 1` — refuting the claimed
`if and only if` on the entry count. -/
theorem claim_C7_valuetoolarge_counterexample :
    mapTryIntoBytes [(List.replicate 4294967296 0x61, Value.null)] =
      .error (.valueTooLarge 4294967296) := by
  have hk : encodeString (List.replicate 4294967296 0x61) =
      .error (.valueTooLarge 4294967296) := by
    have h := encodeString_too_large (List.replicate 4294967296 0x61)
      (by rw [List.length_replicate]; norm_num)
    rwa [List.length_replicate] at h
  exact mapTryInto_entries_error _ _
    (by rw [List.length_singleton]; norm_num)
    (encodeEntries_key_error _ Value.null [] _ hk)

/-- Claim C7 (amended): encoding `{"a": Integer(1)}` produces exactly
`[0xA1, 0x81, 0x61, 0x01]`, and a `Map` encode fails with
`ValueTooLarge(count)` whenever the entry count exceeds `2^32 - 1`
(an oversized key or value can also produce `ValueTooLarge` at a small
entry count). -/
theorem claim_C7_map_encode_bytes :
    mapTryIntoBytes [([0x61], Value.integer 1)] = .ok [0xA1, 0x81, 0x61, 0x01] ∧
    (∀ m : List (BStr × Value), 4294967295 < m.length →
      mapTryIntoBytes m = .error (.valueTooLarge m.length)) := by
  constructor
  · rfl
  · intro m h
    have h1 : ¬ m.length ≤ 15 := by omega
    have h2 : ¬ m.length ≤ 255 := by omega
    have h3 : ¬ m.length ≤ 65535 := by omega
    have h4 : ¬ m.length ≤ 4294967295 := by omega
    simp [mapTryIntoBytes, encodeMap, mapAssemble, mapGetMarker, h1, h2, h3, h4]

/-- Witness for the amended C7 theorem: a map of `2^32` distinct
four-byte keys exceeds the encodable entry count and fails with
`ValueTooLarge(2^32)`. -/
theorem claim_C7_map_encode_bytes_witness :
    mapTryIntoBytes ((List.range 4294967296).map fun i => (beBytes 4 i, Value.null)) =
      .error (.valueTooLarge 4294967296) := by
  have h := claim_C7_map_encode_bytes.2
    ((List.range 4294967296).map fun i => (beBytes 4 i, Value.null)) (by simp)
  rw [show ((List.range 4294967296).map fun i => (beBytes 4 i, Value.null)).length =
    4294967296 from by simp] at h
  exact h

/-- Claim C1 (counterexample): the map `{"a": Node(1, [], {})}` is
encodable — its four graph fields are in range — but decoding its
encoding fails with `InvalidMarkerByte(0xB3)`: the Node value encodes
as a tiny structure, and the `Value` decoder's tiny-structure dispatch
range is empty (the C2 bug), so `Map::try_from(m.try_into_bytes())`
does not yield `m`. -/
theorem claim_C1_roundtrip_counterexample :
    mapTryIntoBytes [([0x61], .node 1 [] [])] =
      .ok [0xA1, 0x81, 0x61, 0xB3, 0x4E, 0x01, 0x90, 0xA0] ∧
    mapTryFromBytes [0xA1, 0x81, 0x61, 0xB3, 0x4E, 0x01, 0x90, 0xA0] =
      .error (.invalidMarkerByte 0xB3) :=
  ⟨rfl, rfl⟩

/-- Claim C1 (amended): for every encodable `Map` whose values contain
no structure variants (and whose keys are unique, as the Rust `HashMap`
guarantees), decoding the bytes produced by encoding yields the map
back exactly, with no bytes left over. -/
theorem claim_C1_map_roundtrip (m : List (BStr × Value)) (bs : ByteL)
    (hs : simpleEntries m = true) (hnd : nodupKeys m = true)
    (henc : mapTryIntoBytes m = .ok bs) :
    mapTryFromBytes bs = .ok (m, []) := by
  rw [mapTryIntoBytes] at henc
  have henc2 := henc
  rw [encodeMap] at henc2
  obtain ⟨marker, sz, eb, hmk, heb, hsz2, hbs⟩ :=
    mapAssemble_ok_inv m.length _ bs henc2
  have hlen : bs.length = sz.length + eb.length + 1 := by
    rw [hbs]
    simp [List.length_append]
  have Hdec : ∀ kv ∈ m, ∀ (vb r : ByteL), encodeValue kv.2 = .ok vb →
      valueTryFromInner bs.length (vb ++ r) = .res (.ok (kv.2, r)) := by
    intro kv hkv vb r hvb
    have hbnd := encodeEntries_child_bound m eb heb kv hkv vb hvb
    exact valueRT (sizeOf kv.2) kv.2 le_rfl (simpleEntries_mem m hs kv hkv)
      vb hvb r bs.length (by omega)
  have hbody := mapBody_encoded (valueTryFromInner bs.length) m bs [] henc Hdec
  rw [List.append_nil,
    foldl_insertPair_append m [] (fun p hp => absurd hp (List.not_mem_nil p)) hnd,
    List.nil_append] at hbody
  rw [mapTryFromBytes, mapTryFromInner, hbody]
  rfl

/-- Witness for the amended C1 theorem at the one-entry map
`{"a": Integer(1)}`. -/
theorem claim_C1_map_roundtrip_witness :
    mapTryFromBytes [0xA1, 0x81, 0x61, 0x01] = .ok ([([0x61], .integer 1)], []) :=
  claim_C1_map_roundtrip [([0x61], .integer 1)] [0xA1, 0x81, 0x61, 0x01]
    rfl rfl rfl

/-- Counterexample to C10 as stated, which quantifies over every
well-formed duplicate-key encoded map: the two declared entries
`("a", Node(1, [], {}))` and `("a", Integer(1))` — each encoded by the
program's own entry encoders, the Node as the tiny structure
`0xB3 0x4E 0x01 0x90 0xA0` of the spec's table — form a well-formed
map body with a duplicated key, yet decoding fails with
`InvalidMarkerByte(0xB3)`: the empty tiny-structure dispatch range of
the `Value` decoder (the C2 bug) rejects the first value, so decoding
does not succeed without error on the claim's full domain. -/
theorem claim_C10_duplicates_counterexample :
    mapTryIntoBytes [([0x61], .node 1 [] []), ([0x61], .integer 1)] =
      .ok [0xA2, 0x81, 0x61, 0xB3, 0x4E, 0x01, 0x90, 0xA0, 0x81, 0x61, 0x01] ∧
    mapTryFromBytes [0xA2, 0x81, 0x61, 0xB3, 0x4E, 0x01, 0x90, 0xA0,
        0x81, 0x61, 0x01] =
      .error (.invalidMarkerByte 0xB3) :=
  ⟨rfl, rfl⟩

/-- Claim C10 (amended): decoding a well-formed encoded map whose
entries contain duplicate keys and whose values are structure-free and
in range succeeds; the decoded map is the left-to-right
`HashMap::insert` fold of the wire entries, so every duplicated key
holds the value of its last occurrence in wire order, and the decoded
map can hold fewer entries than the size declared in the marker.
(Maps whose values include graph structures fail to decode entirely —
the C2 bug — so the structure-free restriction is needed; see the
counterexample above.) -/
theorem claim_C10_duplicate_keys (entries : List (BStr × Value)) (bs : ByteL)
    (hs : simpleEntries entries = true)
    (henc : mapTryIntoBytes entries = .ok bs) :
    mapTryFromBytes bs = .ok (entries.foldl insertPair [], []) ∧
    (entries.foldl insertPair []).length ≤ entries.length ∧
    ∀ k, lookupKey k (entries.foldl insertPair []) = lookupLast k entries := by
  rw [mapTryIntoBytes] at henc
  have henc2 := henc
  rw [encodeMap] at henc2
  obtain ⟨marker, sz, eb, hmk, heb, hsz2, hbs⟩ :=
    mapAssemble_ok_inv entries.length _ bs henc2
  have hlen : bs.length = sz.length + eb.length + 1 := by
    rw [hbs]
    simp [List.length_append]
  have Hdec : ∀ kv ∈ entries, ∀ (vb r : ByteL), encodeValue kv.2 = .ok vb →
      valueTryFromInner bs.length (vb ++ r) = .res (.ok (kv.2, r)) := by
    intro kv hkv vb r hvb
    have hbnd := encodeEntries_child_bound entries eb heb kv hkv vb hvb
    exact valueRT (sizeOf kv.2) kv.2 le_rfl (simpleEntries_mem entries hs kv hkv)
      vb hvb r bs.length (by omega)
  have hbody := mapBody_encoded (valueTryFromInner bs.length) entries bs [] henc Hdec
  rw [List.append_nil] at hbody
  refine ⟨?_, ?_, ?_⟩
  · rw [mapTryFromBytes, mapTryFromInner, hbody]
    rfl
  · have := foldl_insertPair_length entries []
    simpa using this
  · intro k
    rw [lookupKey_foldl_insertPair entries [] k]
    rw [show lookupKey k [] = none from rfl, optOrNone]

/-- Witness for C10: the wire entries `[("a", 1), ("a", 2)]` declare
two entries; the decoded map holds the single entry `("a", 2)` — the
last occurrence wins and the map is smaller than declared. -/
theorem claim_C10_duplicate_keys_witness :
    mapTryFromBytes [0xA2, 0x81, 0x61, 0x01, 0x81, 0x61, 0x02] =
      .ok ([([0x61], Value.integer 2)], []) ∧
    lookupKey [0x61] [([0x61], Value.integer 2)] =
      lookupLast [0x61] [([0x61], Value.integer 1), ([0x61], Value.integer 2)] :=
  ⟨(claim_C10_duplicate_keys
      [([0x61], .integer 1), ([0x61], .integer 2)]
      [0xA2, 0x81, 0x61, 0x01, 0x81, 0x61, 0x02] rfl rfl).1,
   (claim_C10_duplicate_keys
      [([0x61], .integer 1), ([0x61], .integer 2)]
      [0xA2, 0x81, 0x61, 0x01, 0x81, 0x61, 0x02] rfl rfl).2.2 [0x61]⟩

/-- Claim C9 (confirmed): converting a `Value` into `DateTime<Tz>`
fails with `ConversionError::FromValue` carrying the original value
exactly when the value is not the `DateTimeZoned` variant; every
non-`DateTimeZoned` variant returns that error and never succeeds. -/
theorem claim_C9_datetime_conversion :
    ∀ v : ProtoValue,
      dateTimeTzTryFromValue v = .error (.fromValue v) ↔
        v.isDateTimeZoned = false := by
  intro v
  cases v <;> simp [dateTimeTzTryFromValue, ProtoValue.isDateTimeZoned]

/-- A tiny one-element list marker runs the element loop once on the
tail. -/
theorem listBody_tiny_one (decodeV : ByteL → PRes Value) (tail : ByteL) :
    listDeserializeBody decodeV (0x91 :: tail) =
      pbind (decodeV tail) fun (v, r1) => .res (.ok ([v], r1)) := rfl

/-- Claim C3 (code_bug): the decoders are not fault-free on adversarial
input.  First, decoding recursion depth is unbounded in the input and
the source imposes no depth limit (the spec requires one against stack
overflow): decoding the linear-size input `nestedListBytes k` succeeds
and needs recursion depth `k + 1` — at depth budget `k` (the fuel of
the embedding, decremented once per `Value` recursion level exactly as
the source call stack grows) the decoder is still descending — so a
few kilobytes of `0x91` markers drive the source past any stack bound,
and a stack overflow aborts the process; `catch_unwind` does not catch
aborts.  Second, the declared entry count reaches
`HashMap::with_capacity` (`value/map.rs` line 94) before a single
entry is parsed: the five bytes `[0xDA, 0xFF, 0xFF, 0xFF, 0xFF]` make
the decoder request capacity for `2^32 - 1` entries — the map body at
that point is the `2^32 - 1`-iteration entry loop on an empty rest —
and an allocation failure of that attacker-chosen size likewise aborts
the process. -/
theorem claim_C3_process_faults :
    (∀ k : Nat,
      valueTryFromInner (k + 1) (nestedListBytes k) =
        .res (.ok (nestedListValue k, [])) ∧
      valueTryFromInner k (nestedListBytes k) = .exhausted) ∧
    mapRequestedCapacity [0xDA, 0xFF, 0xFF, 0xFF, 0xFF] = some 4294967295 ∧
    (∀ decodeV : ByteL → PRes Value,
      mapDeserializeBody decodeV [0xDA, 0xFF, 0xFF, 0xFF, 0xFF] =
        mapLoop decodeV 4294967295 [] []) := by
  refine ⟨?_, rfl, fun decodeV => rfl⟩
  intro k
  induction k with
  | zero => exact ⟨rfl, rfl⟩
  | succ k ih =>
    obtain ⟨ihOk, ihExh⟩ := ih
    have hbytes : nestedListBytes (k + 1) = 0x91 :: nestedListBytes k := by
      rw [nestedListBytes, nestedListBytes, List.replicate_succ, List.cons_append]
    constructor
    · rw [hbytes, vd_list_tiny (k + 1) 0x91 (nestedListBytes k)
        (by norm_num) (by norm_num), listBody_tiny_one]
      simp only [ihOk, pbind_ok]
      rfl
    · rw [hbytes, vd_list_tiny k 0x91 (nestedListBytes k)
        (by norm_num) (by norm_num), listBody_tiny_one]
      rw [ihExh, pbind_exhausted, pbind_exhausted]

end BoltRs
